import Mathlib

/-!
Verification development for the sphinx-docfx-yaml extension
(src/docfx_yaml/extension.py).

The Python module registers three Sphinx callbacks: build_init (line 46),
process_docstring (line 199) and build_finished (line 293).  Docstring
events accumulate per-module and per-class record lists in two dictionaries;
build_finished merges separately captured parameter documentation into the
records, pops per-record reference lists, and writes one YAML file per
module or class name plus a table of contents.

The embedding below translates those functions over explicit state.  Python
dictionaries keyed by insertion order are modelled as association lists
whose update operations preserve key uniqueness and ordering; Python
exceptions surface as an error component of the result.  Per-record fields
that are straight-line metadata assignments with no control effect
(source path, start line, git remote and branch) are omitted from the
record structure; every field the verified claims observe is carried.
-/

/-! ### String helpers

Python str.split with a one-character separator, str.join, and list
slicing as used by _get_cls_module (extension.py lines 79 to 101).
-/

/-- Splitting a character list at every dot, accumulating the current
segment; mirrors the behaviour of the Python expression name.split
applied with a dot separator. -/
def splitDotsAux (cur : List Char) : List Char → List String
  | [] => [String.mk cur]
  | c :: cs =>
    if c = '.' then String.mk cur :: splitDotsAux [] cs
    else splitDotsAux (cur ++ [c]) cs

/-- All dot-separated segments of a string; result is never empty. -/
def dotSegs (s : String) : List String := splitDotsAux [] s.data

/-- Python dot join over a list of segments. -/
def joinDots (xs : List String) : String := String.intercalate "." xs

/-- Python truthiness test for an optional string: None and the empty
string are falsy. -/
def falsy : Option String → Bool
  | none => true
  | some s => s = ""

/-- Number of dot characters in a string, as used by the toc grouping
test in build_finished (extension.py line 365). -/
def countDots (s : String) : Nat := s.data.count '.'

/-- Lexicographic comparison of character lists, mirroring Python string
ordering by code point. -/
def charsLe : List Char → List Char → Bool
  | [], _ => true
  | _ :: _, [] => false
  | c :: cs, d :: ds => if c = d then charsLe cs ds else decide (c < d)

/-! ### Python dictionary model for parameter records

A parameter entry such as the dictionaries built in _create_datam
(extension.py lines 126 to 138) is an insertion-ordered mapping from
string keys to string values.  pySet is Python item assignment (replace
the value in place when the key exists, append otherwise); pyUpdate is
dict.update, which assigns every key of the argument in order.
-/

/-- A Python dictionary with string keys and values, in insertion order. -/
abbrev Dict := List (String × String)

/-- Python dictionary item assignment. -/
def pySet (d : Dict) (k v : String) : Dict :=
  match d with
  | [] => [(k, v)]
  | (k0, v0) :: rest => if k0 = k then (k, v) :: rest else (k0, v0) :: pySet rest k v

/-- Python dict.update: assign every key of upd into d, in order. -/
def pyUpdate (d upd : Dict) : Dict :=
  upd.foldl (fun acc kv => pySet acc kv.1 kv.2) d

/-- First value stored under a key, or none. -/
def dGet (d : Dict) (k : String) : Option String :=
  match d with
  | [] => none
  | (k0, v0) :: rest => if k0 = k then some v0 else dGet rest k

/-- The keys of a dictionary, in order. -/
def dictKeys (d : Dict) : List String := d.map Prod.fst

/-! ### Association lists for the process-wide accumulation state

app.env.docfx_yaml_modules and app.env.docfx_yaml_classes map a name to
a list of records.  Keys are unique; a new key is appended at the end,
matching Python dictionary insertion order.
-/

/-- First value stored under a key in an association list. -/
def lookupD {β : Type} (m : List (String × β)) (k : String) : Option β :=
  match m with
  | [] => none
  | (k0, v0) :: rest => if k0 = k then some v0 else lookupD rest k

/-- Replace the value stored under the first occurrence of a key. -/
def updateD {β : Type} (m : List (String × β)) (k : String) (v : β) :
    List (String × β) :=
  match m with
  | [] => []
  | (k0, v0) :: rest =>
    if k0 = k then (k0, v) :: rest else (k0, v0) :: updateD rest k v

/-- The dictionary insertion pattern of process_docstring (extension.py
lines 210 to 220): start a singleton list under a fresh key, append to
the existing list otherwise. -/
def addEntry {β : Type} (m : List (String × List β)) (k : String) (v : β) :
    List (String × List β) :=
  match lookupD m k with
  | some lst => updateD m k (lst ++ [v])
  | none => m ++ [(k, [v])]

/-! ### The Python class hierarchy and the inheritance records

collect_inheritance and insert_inheritance (extension.py lines 228 to
243) walk obj.__bases__ depth first and build, for every base, a nested
list holding the fully qualified base name followed by one nested list
per ancestor.  The class hierarchy itself and the nested lists are
modelled as mutually inductive types so that structural induction is
available; PyClasses and InhEntries are isomorphic to lists.
-/

mutual

/-- A live Python class object: module name, class name, and the tuple
obj.__bases__. -/
inductive PyClass : Type where
  | mk : String → String → PyClasses → PyClass

/-- A list of Python classes, as in obj.__bases__. -/
inductive PyClasses : Type where
  | nil : PyClasses
  | cons : PyClass → PyClasses → PyClasses

end

/-- Module component of a class object. -/
def PyClass.module : PyClass → String
  | .mk m _ _ => m

/-- Name component of a class object. -/
def PyClass.cname : PyClass → String
  | .mk _ n _ => n

/-- Base tuple of a class object. -/
def PyClass.bases : PyClass → PyClasses
  | .mk _ _ bs => bs

/-- The _fullname helper (extension.py line 192): module, dot, name. -/
def fullname (c : PyClass) : String := c.module ++ "." ++ c.cname

mutual

/-- One nested inheritance record: the fully qualified name of a base
followed by the records of its own bases. -/
inductive InhEntry : Type where
  | node : String → InhEntries → InhEntry

/-- A list of nested inheritance records. -/
inductive InhEntries : Type where
  | nil : InhEntries
  | cons : InhEntry → InhEntries → InhEntries

end

mutual

/-- The record that collect_inheritance builds for one base class: its
fullname, followed by one nested record per ancestor (extension.py
lines 228 to 233, with the to_add seed of line 241). -/
def inhEntry : PyClass → InhEntry
  | .mk m n bs => .node (fullname (.mk m n bs)) (inhEntries bs)

/-- The records collect_inheritance appends for a tuple of bases. -/
def inhEntries : PyClasses → InhEntries
  | .nil => .nil
  | .cons c cs => .cons (inhEntry c) (inhEntries cs)

end

/-! ### Record structures -/

/-- The dictionary built by _create_reference (extension.py lines 104
to 111). -/
structure Reference where
  uid : String
  parent : String
  isExternal : Bool
  name : String
  fullName : String
deriving Repr, DecidableEq

/-- The nested syntax dictionary of a record: the introspected parameter
list and an optional summary copied in during the final merge. -/
structure SynData where
  parameters : Option (List Dict)
  summary : Option String
deriving Repr, DecidableEq

/-- One value of app.env.docfx_module_data: the structured-comment data
captured by the monkeypatched field collector, keyed by uid.  Only the
keys the final merge reads are carried. -/
structure DocData where
  parameters : Option (List Dict)
  summary : Option String
deriving Repr, DecidableEq

/-- The result of inspect.getargspec on a callable: positional argument
names and the trailing default values, both rendered as strings. -/
structure Argspec where
  args : List String
  defaults : List String
deriving Repr, DecidableEq

/-- The live object handed to process_docstring, restricted to what the
extension introspects: the base tuple when the object is a class
(hasattr obj __bases__), the argument specification when retrievable,
and whether source inspection succeeds. -/
structure PyObj where
  bases : Option PyClasses
  argspec : Option Argspec
  srcOk : Bool

/-- The record dictionary built by _create_datam (extension.py lines 114
to 189).  Option fields model key presence: children and references
exist only on class and module records, cls only when the owner class
is truthy, synData only when an argument list was captured. -/
structure Datam where
  dmodule : String
  uid : String
  mappedType : String
  dtype : String
  shortName : String
  fullName : String
  summary : Option String
  synData : Option SynData
  cls : Option String
  children : Option (List String)
  references : Option (List Reference)
  inheritance : Option InhEntries

/-- The accumulation state created by build_init: the module and class
dictionaries (extension.py lines 53 to 54). -/
structure Env where
  modules : List (String × List Datam)
  classes : List (String × List Datam)

/-- One autodoc-process-docstring event: the type tag, the fully
qualified name, the live object and the comment lines. -/
structure Event where
  ty : String
  name : String
  obj : PyObj
  lines : List String

/-! ### process_docstring and its helpers -/

/-- The _get_cls_module dispatch (extension.py lines 79 to 101): the
owning class and module names derived from the type tag and the dotted
name; an unknown tag yields a pair of None. -/
def getClsModule (ty name : String) : Option String × Option String :=
  if ty = "function" ∨ ty = "exception" then
    (none, some (joinDots (dotSegs name).dropLast))
  else if ty = "method" ∨ ty = "attribute" then
    (some (joinDots (dotSegs name).dropLast),
     some (joinDots (dotSegs name).dropLast.dropLast))
  else if ty = "class" then
    (some name, some (joinDots (dotSegs name).dropLast))
  else if ty = "module" then
    (none, some name)
  else (none, none)

/-- The TYPE_MAPPING table (extension.py lines 36 to 43).  The table
lookup cannot fail for the six tags that reach _create_datam, because
process_docstring filters every other tag out beforehand. -/
def mappedTypeOf (t : String) : String :=
  if t = "method" ∨ t = "function" then "Method"
  else if t = "module" then "Namespace"
  else if t = "class" ∨ t = "exception" then "Class"
  else if t = "attribute" then "Property"
  else t

/-- Modelled from the spec: transform_string of utils.py is not under
src; the spec describes it only as producing the extracted summary text
from the comment lines, so it is modelled as the identity on the joined
lines. -/
def transformString (s : String) : String := s

/-- Python list indexing: a negative index counts from the end; an index
out of range raises IndexError, modelled as none. -/
def pyIdx (n : Nat) (i : Int) : Option Nat :=
  let j : Int := if i < 0 then i + n else i
  if 0 ≤ j ∧ j < n then some j.toNat else none

/-- One assignment of the defaults loop of _create_datam (line 136):
store a defaultValue into the parameter dictionary at a Python index. -/
def setDefaultAt (args : List Dict) (i : Int) (v : String) : Option (List Dict) :=
  match pyIdx args.length i with
  | some j => some (args.set j (pySet (args.getD j []) "defaultValue" v))
  | none => none

/-- The enumerate loop over argspec.defaults (extension.py lines 133 to
136).  cut is the length of the defaults tuple; the index expression is
len args minus 1 minus cut minus 1 minus count.  An IndexError aborts
the loop but keeps the assignments already made, because the except
clause of line 137 swallows the exception after the list was mutated in
place. -/
def applyDefaults (args : List Dict) (cut : Nat) : Nat → List String → List Dict × Bool
  | _, [] => (args, false)
  | count, v :: rest =>
    match setDefaultAt args ((args.length : Int) - 1 - cut - 1 - count) v with
    | some args1 => applyDefaults args1 cut (count + 1) rest
    | none => (args, true)

/-- The argument list construction of _create_datam (lines 126 to 138):
one dictionary with an id key per argument, then the defaults loop.
A missing argspec (getargspec raised) or an IndexError in the loop is
reported with a diagnostic, matching the print of line 138. -/
def buildArgs (name : String) (spec : Option Argspec) : List Dict × List String :=
  match spec with
  | none => ([], ["Cant get argspec for: " ++ name])
  | some sp =>
    let args := sp.args.map (fun a => [("id", a)])
    if sp.defaults.isEmpty then (args, [])
    else
      let r := applyDefaults args sp.defaults.length 0 sp.defaults
      (r.1, if r.2 then ["Cant get argspec for: " ++ name] else [])

/-- The _create_reference helper (extension.py lines 104 to 111). -/
def createReference (d : Datam) (parent : String) : Reference :=
  { uid := d.uid, parent := parent, isExternal := false,
    name := d.shortName, fullName := d.fullName }

/-- The _create_datam record builder (extension.py lines 114 to 189),
returning the record and the diagnostics printed while building it.
Source-location metadata is omitted; the source-inspection diagnostic
of line 152 is kept.  cls is stored only when truthy (line 183);
children and references are initialised to empty lists exactly on class
and module records (lines 185 to 187). -/
def createDatam (cls : Option String) (module : String) (name ty : String)
    (obj : PyObj) (lines : List String) : Datam × List String :=
  let shortName := (dotSegs name).getLastD ""
  let summary := transformString (String.intercalate "\n" lines)
  let argsPair :=
    if ty = "method" ∨ ty = "function" then buildArgs name obj.argspec
    else ([], [])
  let srcMsgs : List String :=
    if obj.srcOk then [] else ["Cant inspect type: " ++ name]
  let datam : Datam :=
    { dmodule := module
      uid := name
      mappedType := mappedTypeOf ty
      dtype := ty
      shortName := shortName
      fullName := name
      summary := if summary ≠ "" then some summary else none
      synData := if argsPair.1 ≠ [] then some { parameters := some argsPair.1, summary := none } else none
      cls := match cls with
             | some c => if c ≠ "" then some c else none
             | none => none
      children := if ty = "class" ∨ ty = "module" then some [] else none
      references := if ty = "class" ∨ ty = "module" then some [] else none
      inheritance := none }
  (datam, argsPair.2 ++ srcMsgs)

/-- insert_inheritance (extension.py lines 236 to 243): when the object
has a base tuple, record one nested entry per base.  In the source this
mutates the record after it was stored in the dictionaries; since the
record is stored by reference and nothing reads the inheritance field
in between, applying it before storage is equivalent. -/
def insertInheritance (obj : PyObj) (d : Datam) : Datam :=
  match obj.bases with
  | none => d
  | some bs => { d with inheritance := some (inhEntries bs) }

/-- Record update applied to a matched parent record in both linking
passes: append the child uid to the children list and a derived
reference to the references list.  Matched parents are always module or
class records, which carry both keys. -/
def addChildRef (obj d : Datam) : Datam :=
  { obj with
    children := obj.children.map (fun ch => ch ++ [d.uid])
    references := obj.references.map (fun rs => rs ++ [createReference d obj.uid]) }

/-- The scan of insert_children_on_module over one module list
(extension.py lines 255 to 270): the first module record of the same
module wins and the loop breaks; a function child is additionally
appended to the scanned list itself (line 261). -/
def insertModuleList (ty : String) (datam : Datam) : List Datam → List Datam
  | [] => []
  | obj :: rest =>
    if ty = "function" ∧ obj.dtype = "module" ∧ obj.dmodule = datam.dmodule then
      addChildRef obj datam :: rest ++ [datam]
    else if (ty = "class" ∨ ty = "exception") ∧ obj.dtype = "module" ∧ obj.dmodule = datam.dmodule then
      addChildRef obj datam :: rest
    else obj :: insertModuleList ty datam rest

/-- insert_children_on_module (extension.py lines 246 to 270): silently
return when the module key is absent, otherwise rewrite the stored
list.  Every record carries the module key, so only dictionary absence
is tested. -/
def insertModulePass (modules : List (String × List Datam)) (ty : String)
    (datam : Datam) : List (String × List Datam) :=
  match lookupD modules datam.dmodule with
  | none => modules
  | some lst => updateD modules datam.dmodule (insertModuleList ty datam lst)

/-- The matching test of insert_children_on_class (lines 283 to 287): a
record is skipped unless it is a class record, and receives the child
when the child is a method or attribute of the same class.  Class
records always carry the class key, so reading it cannot fail. -/
def classHit (ty : String) (datam obj : Datam) : Bool :=
  obj.dtype = "class" ∧ (ty = "method" ∨ ty = "attribute") ∧ obj.cls = datam.cls

/-- insert_children_on_class (extension.py lines 273 to 290): nothing
happens without a class key; a missing dictionary key raises KeyError
(line 280 indexes without a guard), surfaced in the second component.
The loop has no break: every matching class record receives the child,
and the child record is appended to the list once per match.  The
appended copies are visited later by the growing-list iteration and
skipped, because their type is not class; the map plus replicate below
is therefore the exact effect of the loop. -/
def insertClassPass (classes : List (String × List Datam)) (ty : String)
    (datam : Datam) : List (String × List Datam) × Option String :=
  match datam.cls with
  | none => (classes, none)
  | some c =>
    match lookupD classes c with
    | none => (classes, some ("KeyError: " ++ c))
    | some lst =>
      let newLst :=
        lst.map (fun obj => if classHit ty datam obj then addChildRef obj datam else obj)
          ++ List.replicate (lst.countP (fun obj => classHit ty datam obj)) datam
      (updateD classes c newLst, none)

/-- process_docstring (extension.py lines 199 to 225): derive owner
names, reject a falsy module with the Unknown Type diagnostic, build
the record, store it under its module or class key, then run the two
linking passes.  The error component carries an uncaught KeyError from
the class pass. -/
def processDocstring (env : Env) (e : Event) : Env × List String × Option String :=
  let cm := getClsModule e.ty e.name
  if falsy cm.2 then (env, ["Unknown Type: " ++ e.ty], none)
  else
    let m := cm.2.getD ""
    let dm := createDatam cm.1 m e.name e.ty e.obj e.lines
    let datam := insertInheritance e.obj dm.1
    let modules1 := if e.ty = "module" then addEntry env.modules m datam else env.modules
    let classes1 := if e.ty = "class" then addEntry env.classes (cm.1.getD "") datam else env.classes
    let modules2 := insertModulePass modules1 e.ty datam
    let cp := insertClassPass classes1 e.ty datam
    ({ modules := modules2, classes := cp.1 }, dm.2, cp.2)

/-! ### Event stream processing

The host delivers docstring events one at a time.  An uncaught exception
in a callback aborts the build, so processing stops at the first error.
-/

/-- Build state threaded through the event stream: the accumulated
environment, every diagnostic printed, and the first uncaught error. -/
structure BState where
  env : Env
  msgs : List String
  err : Option String

/-- Deliver one event unless the build already died. -/
def stepEvent (s : BState) (e : Event) : BState :=
  match s.err with
  | some _ => s
  | none =>
    let r := processDocstring s.env e
    { env := r.1, msgs := s.msgs ++ r.2.1, err := r.2.2 }

/-- Deliver a list of events starting from the empty state build_init
creates. -/
def runEvents (evs : List Event) : BState :=
  evs.foldl stepEvent { env := { modules := [], classes := [] }, msgs := [], err := none }

/-- Whether an event is a method or attribute event. -/
def isMeth (e : Event) : Bool := e.ty == "method" || e.ty == "attribute"

/-- Whether process_docstring actually registers the event, that is the
derived module name is truthy. -/
def regEvent (e : Event) : Bool := !(falsy (getClsModule e.ty e.name).2)

/-- The owning class name a method or attribute event derives: the
dotted name without its last segment. -/
def clsOf (e : Event) : String := joinDots (dotSegs e.name).dropLast

/-- Class names already delivered: a registered class event appends its
name. -/
def seenAfter (seen : List String) (e : Event) : List String :=
  if e.ty == "class" && regEvent e then seen ++ [e.name] else seen

/-- A method or attribute event is acceptable when its module resolves
and its owning class was already delivered; other events always are. -/
def okEvent (seen : List String) (e : Event) : Bool :=
  if isMeth e then regEvent e && seen.contains (clsOf e) else true

/-- The delivery-order condition of the amended first claim: every
method or attribute event resolves its module and follows the
registered class event of its owning class. -/
def classesFirstAux (seen : List String) : List Event → Bool
  | [] => true
  | e :: es => okEvent seen e && classesFirstAux (seenAfter seen e) es

/-- classesFirstAux started from no delivered classes. -/
def classesFirst (evs : List Event) : Bool := classesFirstAux [] evs

/-- The class names collected from the registered class events of an
event list, in delivery order. -/
def seenOf (evs : List Event) : List String := evs.foldl seenAfter []

/-- The uids of the registered method and attribute events of one class
within an event list, in delivery order. -/
def methUids (evs : List Event) (c : String) : List String :=
  (evs.filter (fun e => isMeth e && regEvent e && (clsOf e == c))).map (fun e => e.name)

/-! ### The final merge of build_finished

Lines 319 to 345 of extension.py: for every record whose uid appears in
app.env.docfx_module_data, align the documented parameters with the
introspected ones, copy the captured data into the syntax dictionary,
and promote a truthy summary out of it.
-/

/-- The parameter alignment of build_finished (lines 327 to 338): with
both lists nonempty, an introspected list exactly one longer keeps its
first entry undocumented and merges the rest positionally; otherwise
zip truncates to the shorter length.  With either list empty nothing is
merged. -/
def mergeParams (a d : List Dict) : List Dict :=
  if a = [] ∨ d = [] then []
  else if a.length = d.length + 1 then
    a.take 1 ++ List.zipWith pyUpdate (a.drop 1) d
  else List.zipWith pyUpdate a d

/-- The size warning of build_finished (lines 328 to 331): emitted only
when both lists are nonempty and the introspected list is more than one
longer than the documented list. -/
def mergeWarnMsgs (uid : String) (a d : List Dict) : List String :=
  if a ≠ [] ∧ d ≠ [] ∧ d.length + 1 < a.length then
    ["Documented params dont match size of params: " ++ uid]
  else []

/-- The per-record merge step of build_finished (lines 319 to 345),
returning the rewritten record and the warnings emitted.  The syntax
dictionary is created when absent, dict.update copies the captured keys
over it, a nonempty merged list overrides the parameters, and a truthy
summary is popped up onto the record. -/
def mergeEntity (md : List (String × DocData)) (obj : Datam) : Datam × List String :=
  match lookupD md obj.uid with
  | none => (obj, [])
  | some dd =>
    let syn0 : SynData := obj.synData.getD { parameters := none, summary := none }
    let a := syn0.parameters.getD []
    let merged : List Dict :=
      match dd.parameters with
      | none => []
      | some d => mergeParams a d
    let warns : List String :=
      match dd.parameters with
      | none => []
      | some d => mergeWarnMsgs obj.uid a d
    let syn1 : SynData :=
      { parameters := match dd.parameters with
                      | some p => some p
                      | none => syn0.parameters
        summary := match dd.summary with
                   | some s => some s
                   | none => syn0.summary }
    let syn2 := if merged ≠ [] then { syn1 with parameters := some merged } else syn1
    match syn2.summary with
    | some s =>
      if s ≠ "" then
        ({ obj with synData := some { syn2 with summary := none }, summary := some s }, warns)
      else ({ obj with synData := some syn2 }, warns)
    | none => ({ obj with synData := some syn2 }, warns)

/-- The parameter list a record carries in its syntax dictionary, when
both the dictionary and the key exist. -/
def synParams (o : Datam) : Option (List Dict) :=
  match o.synData with
  | none => none
  | some s => s.parameters

/-! ### File and toc emission of build_finished -/

/-- One table-of-contents item nested under a grouped entry. -/
structure TocItem where
  name : String
  href : String
deriving Repr, DecidableEq

/-- One top-level toc entry; the items key exists only after a nested
filename was attached (extension.py lines 369 to 371). -/
structure TocEntry where
  name : String
  href : String
  items : Option (List TocItem)
deriving Repr, DecidableEq

/-- The nesting scan of build_finished (lines 367 to 372): find the
first toc entry whose name equals the two-segment group name, create
its items list when absent and append the nested filename; none when no
entry matches. -/
def updateFirstEntry (toc : List TocEntry) (target fn : String) :
    Option (List TocEntry) :=
  match toc with
  | [] => none
  | e :: rest =>
    if e.name = target then
      some ({ e with items := some (e.items.getD [] ++ [{ name := fn, href := fn ++ ".yml" }]) } :: rest)
    else
      match updateFirstEntry rest target fn with
      | none => none
      | some r => some (e :: r)

/-- The first two dot-separated segments of a filename, used as the toc
group name (extension.py line 366). -/
def secondLevel (fn : String) : String := joinDots ((dotSegs fn).take 2)

/-- The toc update for one emitted filename (extension.py lines 365 to
376): a name with more than one dot is nested under the first entry
named by its two leading segments, with a diagnostic when none exists;
otherwise a new top-level entry is appended. -/
def tocStep (toc : List TocEntry) (fn : String) : List TocEntry × List String :=
  if 1 < countDots fn then
    match updateFirstEntry toc (secondLevel fn) fn with
    | some toc1 => (toc1, [])
    | none => (toc, ["No second level module found: " ++ secondLevel fn])
  else (toc ++ [{ name := fn, href := fn ++ ".yml", items := none }], [])

/-- The toc produced by folding tocStep over the emitted filenames,
with the diagnostics printed along the way. -/
def tocBuild (fns : List String) : List TocEntry × List String :=
  fns.foldl (fun acc fn =>
    let r := tocStep acc.1 fn
    (r.1, acc.2 ++ r.2)) ([], [])

/-- The body of one output file: the fixed top-level shape of the YAML
document written at extension.py lines 356 to 364. -/
structure OutDoc where
  items : List Datam
  references : List Reference
  api_name : List String

/-- One written output file: its name and its document. -/
structure OutFile where
  path : String
  doc : OutDoc

/-- Processing one record of an output file (extension.py lines 319 to
347): merge the captured data, then pop the references key into the
per-file reference list when it exists. -/
def entStep (md : List (String × DocData))
    (acc : List Datam × List Reference × List String) (o : Datam) :
    List Datam × List Reference × List String :=
  let m := mergeEntity md o
  match m.1.references with
  | some rs => (acc.1 ++ [{ m.1 with references := none }], acc.2.1 ++ rs, acc.2.2 ++ m.2)
  | none => (acc.1 ++ [m.1], acc.2.1, acc.2.2 ++ m.2)

/-- All records of one output file processed in order: the merged items,
the flattened reference list, and the warnings. -/
def processEntities (md : List (String × DocData)) (objs : List Datam) :
    List Datam × List Reference × List String :=
  objs.foldl (entStep md) ([], [], [])

/-- Python sorted over dictionary items compares the key strings first;
keys are unique within a dictionary, so the value components never take
part.  mergeSort with the code-point order on keys models it. -/
def sortKeys (m : List (String × List Datam)) : List (String × List Datam) :=
  m.mergeSort (fun x y => charsLe x.1.data y.1.data)

/-- The output accumulated by build_finished: the files written, the toc
entries, and the diagnostics (merge warnings and toc prints; the
verbosity-gated progress message of line 353 is informational and not
modelled). -/
structure FinOut where
  files : List OutFile
  toc : List TocEntry
  msgs : List String

/-- Emission of one dictionary entry in the loop of build_finished
(lines 311 to 376): a falsy filename is skipped; otherwise the records
are merged and popped, one file named by the filename plus the yml
extension is written, and the toc is updated. -/
def finStep (md : List (String × DocData)) (acc : FinOut)
    (entry : String × List Datam) : FinOut :=
  if entry.1 = "" then acc
  else
    let p := processEntities md entry.2
    let file : OutFile :=
      { path := entry.1 ++ ".yml"
        doc := { items := p.1, references := p.2.1, api_name := [] } }
    let t := tocStep acc.toc entry.1
    { files := acc.files ++ [file], toc := t.1, msgs := acc.msgs ++ p.2.2 ++ t.2 }

/-- build_finished over both accumulation dictionaries (extension.py
lines 293 to 385): modules first, classes second, each in sorted key
order. -/
def buildFinishedOut (md : List (String × DocData))
    (modules classes : List (String × List Datam)) : FinOut :=
  (sortKeys modules ++ sortKeys classes).foldl (finStep md)
    { files := [], toc := [], msgs := [] }

/-- The filenames build_finished emits, in emission order. -/
def emittedNames (modules classes : List (String × List Datam)) : List String :=
  ((sortKeys modules ++ sortKeys classes).map Prod.fst).filter (fun n => n ≠ "")

/-! ### build_init and the output directory -/

/-- The build configuration surface the extension reads: the required
docfx_yaml_output value (None when not configured) and the builder
output directory. -/
structure Config where
  docfx_yaml_output : Option String
  outdir : String

/-- Modelled from the spec: API_ROOT is imported from the settings
module, which is not under src; the spec fixes no value, only that it
is a fixed relative directory name, and no claim depends on the exact
string. -/
def API_ROOT : String := "docfx_yaml"

/-- The configuration check of build_init (extension.py lines 50 to 51):
a falsy docfx_yaml_output raises ExtensionError and aborts the build.
The git metadata initialisation that follows is ambient environment
access with no effect on any claim and is omitted. -/
def buildInit (cfg : Config) : Except String Unit :=
  if falsy cfg.docfx_yaml_output then
    .error "You must configure an docfx_yaml_output setting"
  else .ok ()

/-- Whether a path string starts with a slash, that is, is absolute. -/
def absPath (s : String) : Bool :=
  match s.data with
  | '/' :: _ => true
  | _ => false

/-- Whether a path string ends with a slash. -/
def slashEnd (s : String) : Bool := s.data.getLast? = some '/'

/-- os.path.join for the paths involved: an absolute second component
replaces the first. -/
def pathJoin (a b : String) : String :=
  if absPath b then b
  else if slashEnd a then a ++ b
  else a ++ "/" ++ b

/-- The output directory computed by build_finished (extension.py lines
298 to 301): the builder output directory joined with API_ROOT.
os.path.normpath is the identity on the already normal paths arising
here and is omitted.  The configured docfx_yaml_output value is not
consulted. -/
def normalizedOutput (apiRoot : String) (cfg : Config) : String :=
  pathJoin cfg.outdir apiRoot

/-- The full path at which build_finished writes the file of one
module or class name (extension.py line 350). -/
def outFilePath (apiRoot : String) (cfg : Config) (filename : String) : String :=
  pathJoin (normalizedOutput apiRoot cfg) (filename ++ ".yml")

/-! ### Depth measures for the inheritance claim -/

mutual

/-- Nesting depth of one inheritance record: one level for the record
itself plus the depth of its nested records. -/
def entryDepth : InhEntry → Nat
  | .node _ es => 1 + entriesDepth es

/-- Nesting depth of a list of inheritance records: the deepest record,
zero when empty. -/
def entriesDepth : InhEntries → Nat
  | .nil => 0
  | .cons e es => max (entryDepth e) (entriesDepth es)

end

mutual

/-- Length of the longest ancestor chain of a class: zero without
bases, otherwise one more than the deepest base. -/
def ancestorDepth : PyClass → Nat
  | .mk _ _ bs => ancestorDepthList bs

/-- One plus the deepest ancestor chain among a tuple of bases, zero
for the empty tuple. -/
def ancestorDepthList : PyClasses → Nat
  | .nil => 0
  | .cons c cs => max (1 + ancestorDepth c) (ancestorDepthList cs)

end

/-! ### Concrete sample inputs used by witnesses and counterexamples -/

/-- The five type tags _get_cls_module resolves to a class or module
owner other than the module tag itself. -/
def knownDocTypes : List String := ["function", "exception", "class", "method", "attribute"]

/-- A benign live object: no base tuple, an argument specification with
no arguments, and inspectable source. -/
def exObj : PyObj :=
  { bases := none, argspec := some { args := [], defaults := [] }, srcOk := true }

/-- A class docstring event for the class m.C. -/
def exClassEvent : Event := { ty := "class", name := "m.C", obj := exObj, lines := [] }

/-- A method docstring event for the method m.C.f. -/
def exMethodEvent : Event := { ty := "method", name := "m.C.f", obj := exObj, lines := [] }

/-- A record as _create_datam builds it for a module-level function
m.f with three introspected parameters and no defaults. -/
def exFuncDatam : Datam :=
  (createDatam none "m" "m.f" "function"
    { bases := none
      argspec := some { args := ["self", "a", "b"], defaults := [] }
      srcOk := true } []).1

/-- Captured structured-comment data for m.f whose parameters key holds
an empty list. -/
def exEmptyDocData : List (String × DocData) :=
  [("m.f", { parameters := some [], summary := none })]

/-- Captured structured-comment data for m.f documenting two
parameters, one fewer than the three introspected ones. -/
def exDocData : List (String × DocData) :=
  [("m.f", { parameters := some [[("id", "a"), ("type", "int")], [("id", "b")]], summary := none })]

/-- The record _create_datam builds for the module m itself. -/
def exModuleDatam : Datam := (createDatam none "m" "m" "module" exObj []).1

/-- The record _create_datam builds for the class m.C. -/
def exClassDatam : Datam := (createDatam (some "m.C") "m" "m.C" "class" exObj []).1

/-- The record _create_datam builds for the method m.C.f. -/
def exMethDatam : Datam := (createDatam (some "m.C") "m" "m.C.f" "method" exObj []).1

/-- The output file build_finished writes for one dictionary entry: the
merged records, the flattened popped references, and the always empty
api_name list (extension.py lines 349 to 364). -/
def mkOutFile (md : List (String × DocData)) (e : String × List Datam) : OutFile :=
  { path := e.1 ++ ".yml"
    doc := { items := (processEntities md e.2).1
             references := (processEntities md e.2).2.1
             api_name := [] } }

/-! ## Lemmas and claim theorems -/

/-! ### Depth of the inheritance records (claim C9) -/

mutual

/-- The nested record of one base is one level deeper than the
ancestor chain of that base. -/
theorem entryDepth_inhEntry : ∀ c : PyClass, entryDepth (inhEntry c) = 1 + ancestorDepth c
  | .mk m n bs => by
    simp [inhEntry, entryDepth, ancestorDepth, entriesDepth_inhEntries bs]

/-- The records of a base tuple are exactly as deep as the longest
ancestor chain starting at one of the bases. -/
theorem entriesDepth_inhEntries : ∀ cs : PyClasses, entriesDepth (inhEntries cs) = ancestorDepthList cs
  | .nil => rfl
  | .cons c cs => by
    simp [inhEntries, entriesDepth, ancestorDepthList,
      entryDepth_inhEntry c, entriesDepth_inhEntries cs]

end

/-- Claim C9: for every class entity, insert_inheritance records one
nested entry per direct base holding the fullname of the base followed
by the entries of its own bases, and the nesting depth of the recorded
inheritance list equals the length of the longest ancestor chain of the
underlying class. -/
theorem c9_inheritance_depth (c : PyClass) (d : Datam) (a : Option Argspec) (s : Bool) :
    (insertInheritance { bases := some c.bases, argspec := a, srcOk := s } d).inheritance
        = some (inhEntries c.bases)
    ∧ entriesDepth (inhEntries c.bases) = ancestorDepth c := by
  constructor
  · simp [insertInheritance]
  · cases c with
    | mk m n bs => simp [PyClass.bases, ancestorDepth, entriesDepth_inhEntries bs]

/-- Claim C5: the record _create_datam builds for a module-level
function with introspected signature of arguments a and b where b
defaults to 1, and with no documented parameters, carries exactly the
parameter list with an id entry for a and an id plus defaultValue
entry for b: the single default value lands on the last parameter. -/
theorem c5_default_on_last_param :
    (createDatam none "m" "m.f" "function"
      { bases := none, argspec := some { args := ["a", "b"], defaults := ["1"] }, srcOk := true }
      []).1.synData
    = some { parameters := some [[("id", "a")], [("id", "b"), ("defaultValue", "1")]],
             summary := none } := by
  decide

/-- Claim C10 (amended statement is the claim itself, which holds): a
symbol of one of the five known owner-deriving tags whose dotted name
yields a falsy owning module is handled exactly like an unknown tag:
the Unknown Type diagnostic is printed, no record is built, and the
state is returned unchanged; and an unknown tag behaves the same way. -/
theorem c10_short_name_like_unknown (env : Env) (e : Event) :
    (e.ty ∈ knownDocTypes → falsy (getClsModule e.ty e.name).2 = true →
      processDocstring env e = (env, ["Unknown Type: " ++ e.ty], none))
    ∧ (e.ty ∉ ["function", "exception", "method", "attribute", "class", "module"] →
      processDocstring env e = (env, ["Unknown Type: " ++ e.ty], none)) := by
  constructor
  · intro _ hf
    simp [processDocstring, hf]
  · intro h
    simp only [List.mem_cons, List.not_mem_nil, or_false, not_or] at h
    obtain ⟨h1, h2, h3, h4, h5, h6⟩ := h
    have hf : falsy (getClsModule e.ty e.name).2 = true := by
      simp [getClsModule, h1, h2, h3, h4, h5, h6, falsy]
    simp [processDocstring, hf]

/-- Witness for claim C10: a dotless function name is skipped with the
Unknown Type diagnostic, leaving the state untouched. -/
theorem c10_witness :
    processDocstring { modules := [], classes := [] }
        { ty := "function", name := "foo", obj := exObj, lines := [] }
      = ({ modules := [], classes := [] }, ["Unknown Type: function"], none) :=
  (c10_short_name_like_unknown { modules := [], classes := [] }
    { ty := "function", name := "foo", obj := exObj, lines := [] }).1
    (by decide) (by decide)

/-- Counterexample for claim C3: with the output setting configured as
the directory slash custom, initialization succeeds, yet the output
directory build_finished computes is the builder output directory
joined with API_ROOT, which does not lie under the configured
directory.  The configured value is never consulted for output. -/
theorem c3_counterexample :
    buildInit { docfx_yaml_output := some "/custom", outdir := "/out" } = Except.ok ()
    ∧ normalizedOutput API_ROOT { docfx_yaml_output := some "/custom", outdir := "/out" }
        = "/out/docfx_yaml"
    ∧ ("/custom".data.isPrefixOf
        (outFilePath API_ROOT { docfx_yaml_output := some "/custom", outdir := "/out" } "m").data)
        = false := by
  refine ⟨rfl, by decide, by decide⟩

/-- Claim C3, amended: a falsy docfx_yaml_output setting (missing or
empty) makes build_init raise the fatal configuration error, and any
truthy value passes the check; however the directory the generated
files are written under is the builder output directory joined with the
fixed API_ROOT and does not depend on the configured value. -/
theorem c3_amended :
    (∀ o : String, buildInit { docfx_yaml_output := none, outdir := o }
        = Except.error "You must configure an docfx_yaml_output setting")
    ∧ (∀ o : String, buildInit { docfx_yaml_output := some "", outdir := o }
        = Except.error "You must configure an docfx_yaml_output setting")
    ∧ (∀ (o s : String), s ≠ "" → buildInit { docfx_yaml_output := some s, outdir := o }
        = Except.ok ())
    ∧ (∀ (apiRoot o : String) (v w : Option String) (fn : String),
        outFilePath apiRoot { docfx_yaml_output := v, outdir := o } fn
          = outFilePath apiRoot { docfx_yaml_output := w, outdir := o } fn) := by
  refine ⟨fun o => rfl, fun o => rfl, fun o s hs => ?_, fun apiRoot o v w fn => rfl⟩
  simp [buildInit, falsy, hs]

/-- Witness for the amended claim C3: a nonempty setting passes the
check, and two configurations differing only in the setting yield the
same output file path. -/
theorem c3_witness :
    buildInit { docfx_yaml_output := some "api", outdir := "/out" } = Except.ok ()
    ∧ outFilePath "docfx_yaml" { docfx_yaml_output := some "A", outdir := "/o" } "m"
        = outFilePath "docfx_yaml" { docfx_yaml_output := some "B", outdir := "/o" } "m" :=
  ⟨c3_amended.2.2.1 "/out" "api" (by decide),
   c3_amended.2.2.2 "docfx_yaml" "/o" (some "A") (some "B") "m"⟩

/-! ### Python dictionary lemmas (claims C6 and C7) -/

theorem dGet_pySet_self (d : Dict) (k v : String) : dGet (pySet d k v) k = some v := by
  induction d with
  | nil => simp [pySet, dGet]
  | cons kv rest ih =>
    obtain ⟨k0, v0⟩ := kv
    by_cases h : k0 = k
    · simp [pySet, dGet, h]
    · simp [pySet, dGet, h, ih]

theorem dGet_pySet_other (d : Dict) (k k' v : String) (h : k' ≠ k) :
    dGet (pySet d k' v) k = dGet d k := by
  induction d with
  | nil => simp [pySet, dGet, h]
  | cons kv rest ih =>
    obtain ⟨k0, v0⟩ := kv
    by_cases h0 : k0 = k'
    · subst h0
      simp [pySet, dGet, h]
    · by_cases h1 : k0 = k
      · subst h1
        simp [pySet, dGet, h0]
      · simp [pySet, dGet, h0, h1, ih]

theorem pySet_eq_self (d : Dict) (k v : String) (h : dGet d k = some v) :
    pySet d k v = d := by
  induction d with
  | nil => simp [dGet] at h
  | cons kv rest ih =>
    obtain ⟨k0, v0⟩ := kv
    by_cases h0 : k0 = k
    · subst h0
      simp [dGet] at h
      simp [pySet, h]
    · simp [dGet, h0] at h
      simp [pySet, h0, ih h]

theorem dGet_of_mem_nodup (d : Dict) (k v : String)
    (hnd : (d.map Prod.fst).Nodup) (hm : (k, v) ∈ d) : dGet d k = some v := by
  induction d with
  | nil => simp at hm
  | cons kv rest ih =>
    obtain ⟨k0, v0⟩ := kv
    simp only [List.map_cons, List.nodup_cons] at hnd
    rcases List.mem_cons.mp hm with h | h
    · obtain ⟨hk, hv⟩ := Prod.mk.injEq .. ▸ h
      subst hk; subst hv
      simp [dGet]
    · have hk : k0 ≠ k := by
        intro hkk
        exact hnd.1 (hkk ▸ (List.mem_map.mpr ⟨(k, v), h, rfl⟩))
      simp [dGet, hk, ih hnd.2 h]

theorem dGet_pyUpdate_not_mem (u : Dict) :
    ∀ (d : Dict) (k : String), k ∉ u.map Prod.fst → dGet (pyUpdate d u) k = dGet d k := by
  induction u with
  | nil => intro d k _; rfl
  | cons x u ih =>
    intro d k hk
    simp only [List.map_cons, List.mem_cons, not_or] at hk
    have step : pyUpdate d (x :: u) = pyUpdate (pySet d x.1 x.2) u := rfl
    rw [step, ih (pySet d x.1 x.2) k hk.2, dGet_pySet_other d k x.1 x.2 (fun h => hk.1 h.symm)]

theorem dGet_pyUpdate_mem (u : Dict) (hnd : (u.map Prod.fst).Nodup) :
    ∀ (d : Dict) (k v : String), (k, v) ∈ u → dGet (pyUpdate d u) k = some v := by
  induction u with
  | nil => intro d k v hm; simp at hm
  | cons x u ih =>
    intro d k v hm
    simp only [List.map_cons, List.nodup_cons] at hnd
    have step : pyUpdate d (x :: u) = pyUpdate (pySet d x.1 x.2) u := rfl
    rcases List.mem_cons.mp hm with h | h
    · subst h
      rw [step, dGet_pyUpdate_not_mem u _ k hnd.1, dGet_pySet_self]
    · exact step ▸ ih hnd.2 (pySet d x.1 x.2) k v h

theorem pyUpdate_eq_self (u : Dict) (d : Dict)
    (h : ∀ kv ∈ u, dGet d kv.1 = some kv.2) : pyUpdate d u = d := by
  induction u with
  | nil => rfl
  | cons x u ih =>
    have step : pyUpdate d (x :: u) = pyUpdate (pySet d x.1 x.2) u := rfl
    rw [step, pySet_eq_self d x.1 x.2 (h x (List.mem_cons_self x u))]
    exact ih (fun kv hm => h kv (List.mem_cons_of_mem x hm))

theorem pyUpdate_idem (d u : Dict) (hnd : (u.map Prod.fst).Nodup) :
    pyUpdate (pyUpdate d u) u = pyUpdate d u :=
  pyUpdate_eq_self u (pyUpdate d u)
    (fun kv hm => dGet_pyUpdate_mem u hnd d kv.1 kv.2 hm)

theorem pyUpdate_self (q : Dict) (hnd : (q.map Prod.fst).Nodup) :
    pyUpdate q q = q :=
  pyUpdate_eq_self q q (fun kv hm => dGet_of_mem_nodup q kv.1 kv.2 hnd hm)

theorem zipWith_pyUpdate_idem (a : List Dict) :
    ∀ d : List Dict, (∀ x ∈ d, (x.map Prod.fst).Nodup) →
      List.zipWith pyUpdate (List.zipWith pyUpdate a d) d = List.zipWith pyUpdate a d := by
  induction a with
  | nil => intro d _; simp
  | cons p a ih =>
    intro d hd
    cases d with
    | nil => simp
    | cons q d =>
      simp only [List.zipWith]
      have hq := hd q (List.mem_cons_self q d)
      rw [pyUpdate_idem p q hq, ih d (fun x hx => hd x (List.mem_cons_of_mem q hx))]

theorem zipWith_pyUpdate_self (d : List Dict)
    (hd : ∀ x ∈ d, (x.map Prod.fst).Nodup) :
    List.zipWith pyUpdate d d = d := by
  induction d with
  | nil => rfl
  | cons q d ih =>
    simp only [List.zipWith]
    rw [pyUpdate_self q (hd q (List.mem_cons_self q d)),
      ih (fun x hx => hd x (List.mem_cons_of_mem q hx))]

theorem lookupD_mem {β : Type} (m : List (String × β)) (k : String) (v : β)
    (h : lookupD m k = some v) : (k, v) ∈ m := by
  induction m with
  | nil => simp [lookupD] at h
  | cons kv rest ih =>
    obtain ⟨k0, v0⟩ := kv
    by_cases h0 : k0 = k
    · subst h0
      simp [lookupD] at h
      simp [h]
    · simp [lookupD, h0] at h
      exact List.mem_cons_of_mem _ (ih h)

theorem mergeParams_ne_nil (a d : List Dict) (ha : a ≠ []) (hd : d ≠ []) :
    mergeParams a d ≠ [] := by
  cases a with
  | nil => exact absurd rfl ha
  | cons p a =>
    cases d with
    | nil => exact absurd rfl hd
    | cons q d =>
      have hc1 : ¬(p :: a = [] ∨ q :: d = []) := by simp
      unfold mergeParams
      rw [if_neg hc1]
      by_cases hl : (p :: a).length = (q :: d).length + 1
      · rw [if_pos hl]
        simp
      · rw [if_neg hl]
        simp [List.zipWith]

/-! ### Properties of the per-record merge (claims C6 and C7) -/

theorem mergeEntity_eq_of_none (md : List (String × DocData)) (obj : Datam)
    (h : lookupD md obj.uid = none) : mergeEntity md obj = (obj, []) := by
  simp [mergeEntity, h]

theorem mergeEntity_uid (md : List (String × DocData)) (obj : Datam) :
    (mergeEntity md obj).1.uid = obj.uid := by
  cases h : lookupD md obj.uid with
  | none => simp [mergeEntity, h]
  | some dd =>
    simp only [mergeEntity, h]
    split <;> (try split) <;> rfl

theorem mergeEntity_refs (md : List (String × DocData)) (obj : Datam) :
    (mergeEntity md obj).1.references = obj.references := by
  cases h : lookupD md obj.uid with
  | none => simp [mergeEntity, h]
  | some dd =>
    simp only [mergeEntity, h]
    split <;> (try split) <;> rfl

theorem mergeEntity_synData_isSome (md : List (String × DocData)) (obj : Datam)
    (dd : DocData) (h : lookupD md obj.uid = some dd) :
    ((mergeEntity md obj).1.synData).isSome = true := by
  simp only [mergeEntity, h]
  split <;> (try split) <;> rfl

theorem mergeEntity_synParams_pnone (md : List (String × DocData)) (obj : Datam)
    (dd : DocData) (h : lookupD md obj.uid = some dd) (hp : dd.parameters = none) :
    synParams (mergeEntity md obj).1
      = (obj.synData.getD { parameters := none, summary := none }).parameters := by
  simp only [mergeEntity, h, hp]
  rw [if_neg (by simp : ¬([] : List Dict) ≠ [])]
  split <;> (try split) <;> simp [synParams]

theorem mergeEntity_synParams_psome (md : List (String × DocData)) (obj : Datam)
    (dd : DocData) (dl : List Dict) (h : lookupD md obj.uid = some dd)
    (hp : dd.parameters = some dl) :
    synParams (mergeEntity md obj).1
      = some (if mergeParams
                  ((obj.synData.getD { parameters := none, summary := none }).parameters.getD []) dl = []
              then dl
              else mergeParams
                  ((obj.synData.getD { parameters := none, summary := none }).parameters.getD []) dl) := by
  simp only [mergeEntity, h, hp]
  by_cases hm : mergeParams
      ((obj.synData.getD { parameters := none, summary := none }).parameters.getD []) dl = []
  · rw [if_pos hm]
    simp only [hm, ne_eq, not_true_eq_false, if_false]
    split <;> (try split) <;> simp [synParams]
  · rw [if_neg hm]
    simp only [ne_eq, hm, not_false_eq_true, if_true]
    split <;> (try split) <;> simp [synParams]

theorem getD_parameters_of_isSome (o : Datam) (h : (o.synData).isSome = true) :
    (o.synData.getD { parameters := none, summary := none }).parameters = synParams o := by
  cases hs : o.synData with
  | none => rw [hs] at h; simp at h
  | some s => simp [hs, synParams]

theorem mergeParams_nil_left (d : List Dict) : mergeParams [] d = [] := by
  unfold mergeParams
  rw [if_pos (Or.inl rfl)]

theorem mergeParams_nil_right (a : List Dict) : mergeParams a [] = [] := by
  unfold mergeParams
  rw [if_pos (Or.inr rfl)]

theorem mergeParams_self (dl : List Dict) (hd : dl ≠ [])
    (hq : ∀ x ∈ dl, (x.map Prod.fst).Nodup) : mergeParams dl dl = dl := by
  unfold mergeParams
  rw [if_neg (by simp [hd]), if_neg (by omega)]
  exact zipWith_pyUpdate_self dl hq

theorem mergeParams_mergeParams (a dl : List Dict) (ha : a ≠ []) (hd : dl ≠ [])
    (hq : ∀ x ∈ dl, (x.map Prod.fst).Nodup) :
    mergeParams (mergeParams a dl) dl = mergeParams a dl := by
  by_cases hlen : a.length = dl.length + 1
  · cases a with
    | nil => exact absurd rfl ha
    | cons x a =>
      have hlen' : a.length = dl.length := by simpa using hlen
      have hstep : mergeParams (x :: a) dl = x :: List.zipWith pyUpdate a dl := by
        unfold mergeParams
        rw [if_neg (by simp [hd]), if_pos hlen]
        simp
      rw [hstep]
      have hplen : (x :: List.zipWith pyUpdate a dl).length = dl.length + 1 := by
        simp [List.length_zipWith, hlen']
      have hstep2 : mergeParams (x :: List.zipWith pyUpdate a dl) dl
          = x :: List.zipWith pyUpdate (List.zipWith pyUpdate a dl) dl := by
        unfold mergeParams
        rw [if_neg (by simp [hd]), if_pos hplen]
        simp
      rw [hstep2, zipWith_pyUpdate_idem a dl hq]
  · have hstep : mergeParams a dl = List.zipWith pyUpdate a dl := by
      unfold mergeParams
      rw [if_neg (by simp [ha, hd]), if_neg hlen]
    rw [hstep]
    have hzne : List.zipWith pyUpdate a dl ≠ [] := by
      cases a with
      | nil => exact absurd rfl ha
      | cons x a =>
        cases dl with
        | nil => exact absurd rfl hd
        | cons y d => simp [List.zipWith]
    have hzlen : ¬(List.zipWith pyUpdate a dl).length = dl.length + 1 := by
      intro heq
      have hmin := min_le_right a.length dl.length
      rw [List.length_zipWith] at heq
      rw [heq] at hmin
      omega
    have hstep2 : mergeParams (List.zipWith pyUpdate a dl) dl
        = List.zipWith pyUpdate (List.zipWith pyUpdate a dl) dl := by
      unfold mergeParams
      rw [if_neg (by simp [hzne, hd]), if_neg hzlen]
    rw [hstep2, zipWith_pyUpdate_idem a dl hq]

/-- Claim C7: the per-record merge of documented parameters into
introspected parameters is idempotent: merging a record a second time
against the same captured data yields the same parameter list.  The
captured parameter dictionaries are assumed to have distinct keys, as
Python dictionaries always do. -/
theorem c7_merge_idempotent (md : List (String × DocData)) (obj : Datam)
    (h : ∀ p ∈ md, ∀ dl, p.2.parameters = some dl → ∀ q ∈ dl, (q.map Prod.fst).Nodup) :
    synParams (mergeEntity md (mergeEntity md obj).1).1 = synParams (mergeEntity md obj).1 := by
  cases hl : lookupD md obj.uid with
  | none =>
    have h1 := mergeEntity_eq_of_none md obj hl
    show synParams (mergeEntity md (mergeEntity md obj).1).1 = synParams (mergeEntity md obj).1
    rw [h1]
    show synParams (mergeEntity md obj).1 = synParams obj
    rw [h1]
  | some dd =>
    have huid := mergeEntity_uid md obj
    have hl2 : lookupD md (mergeEntity md obj).1.uid = some dd := by rw [huid]; exact hl
    have hsome := mergeEntity_synData_isSome md obj dd hl
    have hgetd := getD_parameters_of_isSome (mergeEntity md obj).1 hsome
    cases hp : dd.parameters with
    | none =>
      rw [mergeEntity_synParams_pnone md (mergeEntity md obj).1 dd hl2 hp, hgetd]
    | some dl =>
      have hq : ∀ q ∈ dl, (q.map Prod.fst).Nodup :=
        h (obj.uid, dd) (lookupD_mem md obj.uid dd hl) dl hp
      rw [mergeEntity_synParams_psome md (mergeEntity md obj).1 dd dl hl2 hp, hgetd,
        mergeEntity_synParams_psome md obj dd dl hl hp]
      simp only [Option.getD_some]
      by_cases hdl : dl = []
      · subst hdl
        simp [mergeParams_nil_right]
      · by_cases hA :
          (obj.synData.getD { parameters := none, summary := none }).parameters.getD [] = []
        · have h1 : mergeParams
              ((obj.synData.getD { parameters := none, summary := none }).parameters.getD []) dl
              = [] := by rw [hA]; exact mergeParams_nil_left dl
          have hpv : (if mergeParams
              ((obj.synData.getD { parameters := none, summary := none }).parameters.getD []) dl = []
              then dl
              else mergeParams
                ((obj.synData.getD { parameters := none, summary := none }).parameters.getD []) dl)
              = dl := if_pos h1
          rw [hpv, mergeParams_self dl hdl hq, if_neg hdl]
        · have hne := mergeParams_ne_nil _ dl hA hdl
          have hpv : (if mergeParams
              ((obj.synData.getD { parameters := none, summary := none }).parameters.getD []) dl = []
              then dl
              else mergeParams
                ((obj.synData.getD { parameters := none, summary := none }).parameters.getD []) dl)
              = mergeParams
                ((obj.synData.getD { parameters := none, summary := none }).parameters.getD []) dl :=
            if_neg hne
          rw [hpv, mergeParams_mergeParams _ dl hA hdl hq, if_neg hne]

/-- Witness for claim C7: merging the record of m.f (three introspected
parameters) against captured documentation for two parameters twice
gives the same parameter list as merging once. -/
theorem c7_witness :
    synParams (mergeEntity exDocData (mergeEntity exDocData exFuncDatam).1).1
      = synParams (mergeEntity exDocData exFuncDatam).1 :=
  c7_merge_idempotent exDocData exFuncDatam (by decide)

theorem zipWith_get? (f : Dict → Dict → Dict) :
    ∀ (a b : List Dict) (i : Nat) (pa pd : Dict), a[i]? = some pa → b[i]? = some pd →
      (List.zipWith f a b)[i]? = some (f pa pd) := by
  intro a
  induction a with
  | nil => intro b i pa pd hpa _; simp at hpa
  | cons x a ih =>
    intro b i pa pd hpa hpd
    cases b with
    | nil => simp at hpd
    | cons y b =>
      cases i with
      | zero =>
        simp at hpa hpd
        simp [List.zipWith, hpa, hpd]
      | succ i =>
        simp only [List.getElem?_cons_succ] at hpa hpd
        simpa [List.zipWith] using ih b i pa pd hpa hpd

theorem mergeEntity_warns_psome (md : List (String × DocData)) (obj : Datam)
    (dd : DocData) (dl : List Dict) (h : lookupD md obj.uid = some dd)
    (hp : dd.parameters = some dl) :
    (mergeEntity md obj).2
      = mergeWarnMsgs obj.uid
          ((obj.synData.getD { parameters := none, summary := none }).parameters.getD []) dl := by
  simp only [mergeEntity, h, hp]
  split <;> (try split) <;> rfl

/-- Counterexample for claim C6: the record of m.f carries three
introspected parameters; the captured data documents zero parameters.
The introspected list is more than one longer than the documented list,
yet no warning is emitted, and instead of partial merged data the
parameter list is replaced by the empty documented list. -/
theorem c6_counterexample :
    mergeWarnMsgs "m.f" [[("id", "self")], [("id", "a")], [("id", "b")]] [] = []
    ∧ mergeParams [[("id", "self")], [("id", "a")], [("id", "b")]] [] = []
    ∧ (mergeEntity exEmptyDocData exFuncDatam).2 = []
    ∧ synParams (mergeEntity exEmptyDocData exFuncDatam).1 = some [] := by
  refine ⟨by decide, by decide, by decide, by decide⟩

/-- Claim C6, amended: with both lists nonempty the merge aligns by
position: equal counts merge every documented entry into the
introspected entry at the same position with no warning; an
introspected list exactly one longer keeps its first entry undocumented
and merges the rest positionally with no warning; an introspected list
more than one longer emits the size warning and still writes partial
data, namely the first documented-count entries merged positionally.
With an empty documented list no warning is emitted regardless of the
count difference, and the captured empty list replaces the parameter
list of the record. -/
theorem c6_merge_alignment (uid : String) (a d : List Dict) :
    (a.length = d.length →
      mergeWarnMsgs uid a d = [] ∧
      (a ≠ [] → d ≠ [] →
        (mergeParams a d).length = a.length ∧
        ∀ (i : Nat) (pa pd : Dict), a[i]? = some pa → d[i]? = some pd →
          (mergeParams a d)[i]? = some (pyUpdate pa pd)))
    ∧ (a.length = d.length + 1 → d ≠ [] →
        mergeWarnMsgs uid a d = [] ∧
        (mergeParams a d).length = a.length ∧
        (mergeParams a d)[0]? = a[0]? ∧
        (∀ (i : Nat) (pa pd : Dict), a[i + 1]? = some pa → d[i]? = some pd →
          (mergeParams a d)[i + 1]? = some (pyUpdate pa pd)))
    ∧ (d.length + 1 < a.length → d ≠ [] →
        mergeWarnMsgs uid a d = ["Documented params dont match size of params: " ++ uid] ∧
        (mergeParams a d).length = d.length ∧
        (∀ (i : Nat) (pa pd : Dict), a[i]? = some pa → d[i]? = some pd →
          (mergeParams a d)[i]? = some (pyUpdate pa pd)))
    ∧ (d = [] → mergeWarnMsgs uid a d = [] ∧ mergeParams a d = [])
    ∧ (∀ (md : List (String × DocData)) (obj : Datam) (dd : DocData),
        lookupD md obj.uid = some dd → dd.parameters = some [] →
        (mergeEntity md obj).2 = [] ∧ synParams (mergeEntity md obj).1 = some []) := by
  refine ⟨?_, ?_, ?_, ?_, ?_⟩
  · intro hlen
    constructor
    · unfold mergeWarnMsgs
      rw [if_neg]
      rintro ⟨-, -, hlt⟩
      omega
    · intro ha hd
      have hne : ¬(a.length = d.length + 1) := by omega
      have hmp : mergeParams a d = List.zipWith pyUpdate a d := by
        unfold mergeParams
        rw [if_neg (by simp [ha, hd]), if_neg hne]
      rw [hmp]
      constructor
      · rw [List.length_zipWith]
        omega
      · intro i pa pd hpa hpd
        exact zipWith_get? pyUpdate a d i pa pd hpa hpd
  · intro hlen hd
    have ha : a ≠ [] := by
      intro hnil
      rw [hnil] at hlen
      simp at hlen
    refine ⟨?_, ?_⟩
    · unfold mergeWarnMsgs
      rw [if_neg]
      rintro ⟨-, -, hlt⟩
      omega
    · cases a with
      | nil => exact absurd rfl ha
      | cons x a =>
        have hlen' : a.length = d.length := by simpa using hlen
        have hmp : mergeParams (x :: a) d = x :: List.zipWith pyUpdate a d := by
          unfold mergeParams
          rw [if_neg (by simp [hd]), if_pos hlen]
          simp
        rw [hmp]
        refine ⟨?_, ?_, ?_⟩
        · simp [List.length_zipWith, hlen']
        · simp
        · intro i pa pd hpa hpd
          simp only [List.getElem?_cons_succ] at hpa ⊢
          exact zipWith_get? pyUpdate a d i pa pd hpa hpd
  · intro hlt hd
    have ha : a ≠ [] := by
      intro hnil
      rw [hnil] at hlt
      simp at hlt
    refine ⟨?_, ?_, ?_⟩
    · unfold mergeWarnMsgs
      rw [if_pos ⟨ha, hd, hlt⟩]
    · have hne : ¬(a.length = d.length + 1) := by omega
      have hmp : mergeParams a d = List.zipWith pyUpdate a d := by
        unfold mergeParams
        rw [if_neg (by simp [ha, hd]), if_neg hne]
      rw [hmp, List.length_zipWith]
      omega
    · intro i pa pd hpa hpd
      have hne : ¬(a.length = d.length + 1) := by omega
      have hmp : mergeParams a d = List.zipWith pyUpdate a d := by
        unfold mergeParams
        rw [if_neg (by simp [ha, hd]), if_neg hne]
      rw [hmp]
      exact zipWith_get? pyUpdate a d i pa pd hpa hpd
  · intro hd
    subst hd
    exact ⟨by simp [mergeWarnMsgs], mergeParams_nil_right a⟩
  · intro md obj dd h hp
    constructor
    · rw [mergeEntity_warns_psome md obj dd [] h hp]
      simp [mergeWarnMsgs]
    · rw [mergeEntity_synParams_psome md obj dd [] h hp]
      simp [mergeParams_nil_right]

/-- Witness for the amended claim C6: merging the three introspected
parameters of m.f with two documented parameters (one fewer) keeps the
implicit first parameter undocumented, merges the rest positionally and
warns about nothing. -/
theorem c6_witness :
    mergeWarnMsgs "m.f" [[("id", "self")], [("id", "a")], [("id", "b")]]
        [[("id", "a"), ("type", "int")], [("id", "b")]] = []
    ∧ (mergeParams [[("id", "self")], [("id", "a")], [("id", "b")]]
        [[("id", "a"), ("type", "int")], [("id", "b")]])[0]?
      = some [("id", "self")] :=
  ⟨((c6_merge_alignment "m.f" [[("id", "self")], [("id", "a")], [("id", "b")]]
      [[("id", "a"), ("type", "int")], [("id", "b")]]).2.1 (by decide) (by decide)).1,
   (((c6_merge_alignment "m.f" [[("id", "self")], [("id", "a")], [("id", "b")]]
      [[("id", "a"), ("type", "int")], [("id", "b")]]).2.1 (by decide) (by decide)).2.2.1).trans
     (by decide)⟩

/-! ### Table-of-contents lemmas (claim C4) -/

theorem updateFirstEntry_spec (target fn : String) :
    ∀ (toc toc' : List TocEntry), updateFirstEntry toc target fn = some toc' →
      ∃ e ∈ toc', e.name = target ∧
        ∃ l, e.items = some l ∧ ({ name := fn, href := fn ++ ".yml" } : TocItem) ∈ l := by
  intro toc
  induction toc with
  | nil => intro toc' h; simp [updateFirstEntry] at h
  | cons e0 rest ih =>
    intro toc' h
    by_cases h0 : e0.name = target
    · rw [updateFirstEntry, if_pos h0] at h
      obtain rfl : _ :: rest = toc' := Option.some.injEq .. ▸ h
      refine ⟨_, List.mem_cons_self _ _, h0, e0.items.getD [] ++ [{ name := fn, href := fn ++ ".yml" }], rfl, ?_⟩
      exact List.mem_append_right _ (List.mem_singleton.mpr rfl)
    · rw [updateFirstEntry, if_neg h0] at h
      cases hr : updateFirstEntry rest target fn with
      | none => rw [hr] at h; exact absurd h (by simp)
      | some r' =>
        rw [hr] at h
        obtain rfl : e0 :: r' = toc' := Option.some.injEq .. ▸ h
        obtain ⟨e, he, hprops⟩ := ih r' hr
        exact ⟨e, List.mem_cons_of_mem e0 he, hprops⟩

theorem updateFirstEntry_preserves (target fn : String) :
    ∀ (toc toc' : List TocEntry), updateFirstEntry toc target fn = some toc' →
      ∀ e ∈ toc, ∃ e' ∈ toc', e'.name = e.name ∧ e'.href = e.href ∧
        ∀ l it, e.items = some l → it ∈ l → ∃ l', e'.items = some l' ∧ it ∈ l' := by
  intro toc
  induction toc with
  | nil => intro toc' h e he; simp at he
  | cons e0 rest ih =>
    intro toc' h e he
    by_cases h0 : e0.name = target
    · rw [updateFirstEntry, if_pos h0] at h
      obtain rfl : _ :: rest = toc' := Option.some.injEq .. ▸ h
      rcases List.mem_cons.mp he with rfl | hmem
      · refine ⟨_, List.mem_cons_self _ _, rfl, rfl, ?_⟩
        intro l it hl hit
        refine ⟨e.items.getD [] ++ [{ name := fn, href := fn ++ ".yml" }], rfl, ?_⟩
        rw [hl]
        exact List.mem_append_left _ hit
      · exact ⟨e, List.mem_cons_of_mem _ hmem, rfl, rfl,
          fun l it hl hit => ⟨l, hl, hit⟩⟩
    · rw [updateFirstEntry, if_neg h0] at h
      cases hr : updateFirstEntry rest target fn with
      | none => rw [hr] at h; exact absurd h (by simp)
      | some r' =>
        rw [hr] at h
        obtain rfl : e0 :: r' = toc' := Option.some.injEq .. ▸ h
        rcases List.mem_cons.mp he with rfl | hmem
        · exact ⟨e, List.mem_cons_self _ _, rfl, rfl,
            fun l it hl hit => ⟨l, hl, hit⟩⟩
        · obtain ⟨e', he', hprops⟩ := ih r' hr e hmem
          exact ⟨e', List.mem_cons_of_mem e0 he', hprops⟩

theorem tocStep_preserves (toc : List TocEntry) (fn : String) :
    ∀ e ∈ toc, ∃ e' ∈ (tocStep toc fn).1, e'.name = e.name ∧ e'.href = e.href ∧
      ∀ l it, e.items = some l → it ∈ l → ∃ l', e'.items = some l' ∧ it ∈ l' := by
  intro e he
  unfold tocStep
  by_cases hc : 1 < countDots fn
  · rw [if_pos hc]
    cases hu : updateFirstEntry toc (secondLevel fn) fn with
    | none =>
      exact ⟨e, he, rfl, rfl, fun l it hl hit => ⟨l, hl, hit⟩⟩
    | some toc' =>
      exact updateFirstEntry_preserves (secondLevel fn) fn toc toc' hu e he
  · rw [if_neg hc]
    exact ⟨e, List.mem_append_left _ he, rfl, rfl, fun l it hl hit => ⟨l, hl, hit⟩⟩

theorem tocBuild_append (fns : List String) (g : String) :
    tocBuild (fns ++ [g])
      = ((tocStep (tocBuild fns).1 g).1, (tocBuild fns).2 ++ (tocStep (tocBuild fns).1 g).2) := by
  unfold tocBuild
  rw [List.foldl_append]
  rfl

theorem tocFold_fst (fns : List String) :
    ∀ (t : List TocEntry) (m : List String),
      (fns.foldl (fun acc fn =>
        let r := tocStep acc.1 fn
        (r.1, acc.2 ++ r.2)) (t, m)).1
      = fns.foldl (fun t2 fn => (tocStep t2 fn).1) t := by
  induction fns with
  | nil => intro t m; rfl
  | cons g fns ih =>
    intro t m
    simp only [List.foldl_cons]
    exact ih _ _

theorem finFold_toc (md : List (String × DocData)) :
    ∀ (entries : List (String × List Datam)) (acc : FinOut),
      (entries.foldl (finStep md) acc).toc
        = ((entries.map Prod.fst).filter (fun n => n ≠ "")).foldl
            (fun t fn => (tocStep t fn).1) acc.toc := by
  intro entries
  induction entries with
  | nil => intro acc; rfl
  | cons e rest ih =>
    intro acc
    by_cases he : e.1 = ""
    · have hstep : finStep md acc e = acc := by
        unfold finStep
        rw [if_pos he]
      rw [List.foldl_cons, hstep, List.map_cons,
        List.filter_cons_of_neg (by simp [he])]
      exact ih acc
    · have hstep : (finStep md acc e).toc = (tocStep acc.toc e.1).1 := by
        unfold finStep
        rw [if_neg he]
      rw [List.foldl_cons, List.map_cons,
        List.filter_cons_of_pos (by simp [he]), List.foldl_cons,
        ih (finStep md acc e), hstep]

/-- Counterexample for claim C4: emitting only the three-segment
filename x.y.z (no two-segment parent was ever emitted) leaves the toc
empty: the entry is dropped with a diagnostic instead of appearing
under a parent entry named x.y. -/
theorem c4_counterexample :
    (tocBuild ["x.y.z"]).1 = []
    ∧ (tocBuild ["x.y.z"]).2 = ["No second level module found: x.y"]
    ∧ 1 < countDots "x.y.z"
    ∧ ∀ e ∈ (tocBuild ["x.y.z"]).1, False :=
  ⟨by decide, by decide, by decide, by decide⟩

/-- Claim C4, amended: the toc build_finished writes is the fold of
tocStep over the emitted filenames; every emitted filename with at most
one dot appears as a top-level name and href entry, and every filename
with more than one dot either appears as an item nested under an entry
whose name is its first two dotted segments, or, when no such top-level
entry existed when it was processed, is dropped from the toc entirely
and the no-second-level diagnostic naming its group is printed. -/
theorem c4_toc_grouping :
    (∀ (md : List (String × DocData)) (modules classes : List (String × List Datam)),
      (buildFinishedOut md modules classes).toc
        = (tocBuild (emittedNames modules classes)).1)
    ∧ ∀ (fns : List String) (fn : String), fn ∈ fns →
      (countDots fn ≤ 1 → ∃ e ∈ (tocBuild fns).1, e.name = fn ∧ e.href = fn ++ ".yml")
      ∧ (1 < countDots fn →
          (∃ e ∈ (tocBuild fns).1, e.name = secondLevel fn ∧
            ∃ l, e.items = some l ∧ ({ name := fn, href := fn ++ ".yml" } : TocItem) ∈ l)
          ∨ ("No second level module found: " ++ secondLevel fn) ∈ (tocBuild fns).2) := by
  constructor
  · intro md modules classes
    show ((sortKeys modules ++ sortKeys classes).foldl (finStep md)
        { files := [], toc := [], msgs := [] }).toc = _
    rw [finFold_toc md (sortKeys modules ++ sortKeys classes)
      { files := [], toc := [], msgs := [] }]
    have h2 : (tocBuild (emittedNames modules classes)).1
        = (emittedNames modules classes).foldl (fun t2 fn => (tocStep t2 fn).1) [] := by
      unfold tocBuild
      exact tocFold_fst (emittedNames modules classes) [] []
    rw [h2]
    rfl
  · intro fns
    induction fns using List.reverseRecOn with
    | nil => intro fn hfn; simp at hfn
    | append_singleton fns g ih =>
      intro fn hfn
      rcases List.mem_append.mp hfn with hmem | hlast
      · have hprev := ih fn hmem
        rw [tocBuild_append]
        constructor
        · intro hshort
          obtain ⟨e, he, hname, hhref⟩ := hprev.1 hshort
          obtain ⟨e', he', hn', hh', _⟩ := tocStep_preserves (tocBuild fns).1 g e he
          exact ⟨e', he', hn'.trans hname, hh'.trans hhref⟩
        · intro hlong
          rcases hprev.2 hlong with ⟨e, he, hname, l, hl, hit⟩ | hmsg
          · obtain ⟨e', he', hn', _, hitems⟩ := tocStep_preserves (tocBuild fns).1 g e he
            obtain ⟨l', hl', hit'⟩ := hitems l _ hl hit
            exact Or.inl ⟨e', he', hn'.trans hname, l', hl', hit'⟩
          · exact Or.inr (List.mem_append_left _ hmsg)
      · have hg : fn = g := List.mem_singleton.mp hlast
        subst hg
        rw [tocBuild_append]
        constructor
        · intro hshort
          have hc : ¬(1 < countDots fn) := by omega
          refine ⟨{ name := fn, href := fn ++ ".yml", items := none }, ?_, rfl, rfl⟩
          show _ ∈ (tocStep (tocBuild fns).1 fn).1
          unfold tocStep
          rw [if_neg hc]
          exact List.mem_append_right _ (List.mem_singleton.mpr rfl)
        · intro hlong
          cases hu : updateFirstEntry (tocBuild fns).1 (secondLevel fn) fn with
          | some toc' =>
            left
            obtain ⟨e, he, hname, l, hl, hit⟩ :=
              updateFirstEntry_spec (secondLevel fn) fn (tocBuild fns).1 toc' hu
            refine ⟨e, ?_, hname, l, hl, hit⟩
            show e ∈ (tocStep (tocBuild fns).1 fn).1
            unfold tocStep
            rw [if_pos hlong, hu]
            exact he
          | none =>
            right
            show _ ∈ (tocBuild fns).2 ++ (tocStep (tocBuild fns).1 fn).2
            refine List.mem_append_right _ ?_
            unfold tocStep
            rw [if_pos hlong, hu]
            exact List.mem_singleton.mpr rfl

/-- Witness for the amended claim C4: with the filenames a.b then
a.b.c emitted in order, the nested filename a.b.c appears as an item
under the entry a.b or the diagnostic is printed; evaluation shows the
former. -/
theorem c4_witness :
    (∃ e ∈ (tocBuild ["a.b", "a.b.c"]).1, e.name = secondLevel "a.b.c" ∧
      ∃ l, e.items = some l ∧
        ({ name := "a.b.c", href := "a.b.c" ++ ".yml" } : TocItem) ∈ l)
    ∨ ("No second level module found: " ++ secondLevel "a.b.c") ∈ (tocBuild ["a.b", "a.b.c"]).2 :=
  (c4_toc_grouping.2 ["a.b", "a.b.c"] "a.b.c" (by decide)).2 (by decide)

/-! ### Output file lemmas (claim C8) -/

theorem entStep_refs (md : List (String × DocData))
    (acc : List Datam × List Reference × List String) (o : Datam) :
    (entStep md acc o).2.1 = acc.2.1 ++ o.references.getD [] := by
  simp only [entStep]
  rw [mergeEntity_refs md o]
  cases ho : o.references <;> simp

theorem entStep_items (md : List (String × DocData))
    (acc : List Datam × List Reference × List String) (o : Datam) :
    ∀ it ∈ (entStep md acc o).1, it ∈ acc.1 ∨ it.references = none := by
  intro it hit
  simp only [entStep] at hit
  rw [mergeEntity_refs md o] at hit
  cases ho : o.references with
  | none =>
    simp only [ho] at hit
    rcases List.mem_append.mp hit with h | h
    · exact Or.inl h
    · right
      rw [List.mem_singleton.mp h, mergeEntity_refs md o, ho]
  | some rs =>
    simp only [ho] at hit
    rcases List.mem_append.mp hit with h | h
    · exact Or.inl h
    · right
      rw [List.mem_singleton.mp h]

theorem entStep_items_len (md : List (String × DocData))
    (acc : List Datam × List Reference × List String) (o : Datam) :
    (entStep md acc o).1.length = acc.1.length + 1 := by
  simp only [entStep]
  rw [mergeEntity_refs md o]
  cases ho : o.references <;> simp

theorem processEntities_refs (md : List (String × DocData)) :
    ∀ (objs : List Datam) (acc : List Datam × List Reference × List String),
      (objs.foldl (entStep md) acc).2.1
        = acc.2.1 ++ (objs.map (fun o => o.references.getD [])).flatten := by
  intro objs
  induction objs with
  | nil => intro acc; simp
  | cons o objs ih =>
    intro acc
    rw [List.foldl_cons, ih (entStep md acc o), entStep_refs md acc o]
    simp

theorem processEntities_items_refs (md : List (String × DocData)) :
    ∀ (objs : List Datam) (acc : List Datam × List Reference × List String),
      (∀ it ∈ acc.1, it.references = none) →
      ∀ it ∈ (objs.foldl (entStep md) acc).1, it.references = none := by
  intro objs
  induction objs with
  | nil => intro acc hacc; exact hacc
  | cons o objs ih =>
    intro acc hacc
    rw [List.foldl_cons]
    refine ih (entStep md acc o) ?_
    intro it hit
    rcases entStep_items md acc o it hit with h | h
    · exact hacc it h
    · exact h

theorem processEntities_items_len (md : List (String × DocData)) :
    ∀ (objs : List Datam) (acc : List Datam × List Reference × List String),
      (objs.foldl (entStep md) acc).1.length = acc.1.length + objs.length := by
  intro objs
  induction objs with
  | nil => intro acc; simp
  | cons o objs ih =>
    intro acc
    rw [List.foldl_cons, ih (entStep md acc o), entStep_items_len md acc o]
    simp only [List.length_cons]
    omega

theorem finFold_files (md : List (String × DocData)) :
    ∀ (entries : List (String × List Datam)) (acc : FinOut),
      (entries.foldl (finStep md) acc).files
        = acc.files ++ (entries.filter (fun e => e.1 ≠ "")).map (mkOutFile md) := by
  intro entries
  induction entries with
  | nil => intro acc; simp
  | cons e rest ih =>
    intro acc
    by_cases he : e.1 = ""
    · have hstep : finStep md acc e = acc := by
        unfold finStep
        rw [if_pos he]
      rw [List.foldl_cons, hstep, List.filter_cons_of_neg (by simp [he])]
      exact ih acc
    · have hstep : (finStep md acc e).files = acc.files ++ [mkOutFile md e] := by
        unfold finStep
        rw [if_neg he]
        rfl
      rw [List.foldl_cons, List.filter_cons_of_pos (by simp [he]), List.map_cons,
        ih (finStep md acc e), hstep, List.append_assoc]
      rfl

theorem append_yml_inj (s t : String) : s ++ ".yml" = t ++ ".yml" ↔ s = t := by
  constructor
  · intro h
    have hd : (s ++ ".yml").data = (t ++ ".yml").data := congrArg String.data h
    rw [String.data_append, String.data_append] at hd
    exact String.ext (List.append_cancel_right hd)
  · intro h
    rw [h]

theorem sorted_entries_perm (modules classes : List (String × List Datam)) :
    (sortKeys modules ++ sortKeys classes).Perm (modules ++ classes) :=
  List.Perm.append (List.mergeSort_perm modules _) (List.mergeSort_perm classes _)

theorem countP_mkOutFile (md : List (String × DocData)) (n : String) (hne : n ≠ "") :
    ∀ entries : List (String × List Datam),
      ((entries.filter (fun e => e.1 ≠ "")).map (mkOutFile md)).countP
          (fun g => g.path == n ++ ".yml")
        = entries.countP (fun e => e.1 == n) := by
  intro entries
  induction entries with
  | nil => rfl
  | cons e rest ih =>
    by_cases he : e.1 = ""
    · rw [List.filter_cons_of_neg (by simp [he]), ih, List.countP_cons]
      have hb : (e.1 == n) = false := by
        rw [beq_eq_false_iff_ne, he]
        exact fun h => hne h.symm
      rw [hb]
      simp
    · rw [List.filter_cons_of_pos (by simp [he]), List.map_cons,
        List.countP_cons, List.countP_cons, ih]
      congr 1
      show (if ((mkOutFile md e).path == n ++ ".yml") = true then 1 else 0)
        = if (e.1 == n) = true then 1 else 0
      have hpath : (mkOutFile md e).path = e.1 ++ ".yml" := rfl
      rw [hpath]
      by_cases hq : e.1 = n
      · subst hq
        simp
      · have h1 : (e.1 ++ ".yml" == n ++ ".yml") = false := by
          rw [beq_eq_false_iff_ne]
          intro hcontra
          exact hq ((append_yml_inj e.1 n).mp hcontra)
        have h2 : (e.1 == n) = false := by
          rw [beq_eq_false_iff_ne]
          exact hq
        rw [h1, h2]

theorem countP_key_eq_one {n : String} :
    ∀ (l : List (String × List Datam)), ((l.map Prod.fst).Nodup) →
      (∃ ys, (n, ys) ∈ l) → l.countP (fun e => e.1 == n) = 1 := by
  intro l hnd hmem
  obtain ⟨ys, hmem⟩ := hmem
  have h1 : l.countP (fun e => e.1 == n)
      = (l.map Prod.fst).countP (fun x => x == n) := by
    rw [List.countP_map]
    rfl
  rw [h1]
  have h2 : (l.map Prod.fst).countP (fun x => x == n) = List.count n (l.map Prod.fst) := rfl
  rw [h2]
  exact List.count_eq_one_of_mem hnd (List.mem_map_of_mem Prod.fst hmem)

/-- Claim C8: at build completion exactly one output file named by the
fully qualified name plus the yml extension is emitted per accumulated
module or class name (empty names skipped), its document has the fixed
shape of items, references and an always empty api_name list, its
reference list is the concatenation of the per-record reference lists,
and the references key is removed from every emitted record.  The keys
of the two accumulation dictionaries are assumed pairwise distinct, as
they are within each Python dictionary. -/
theorem c8_output_files (md : List (String × DocData))
    (modules classes : List (String × List Datam))
    (hnd : ((modules ++ classes).map Prod.fst).Nodup) :
    (∀ n ys, (n, ys) ∈ modules ++ classes → n ≠ "" →
      ∃ f ∈ (buildFinishedOut md modules classes).files,
        f.path = n ++ ".yml"
        ∧ f.doc.api_name = []
        ∧ f.doc.references = (ys.map (fun o => o.references.getD [])).flatten
        ∧ f.doc.items.length = ys.length
        ∧ (∀ it ∈ f.doc.items, it.references = none)
        ∧ (buildFinishedOut md modules classes).files.countP
            (fun g => g.path == n ++ ".yml") = 1)
    ∧ (buildFinishedOut md modules classes).files.length
        = ((modules ++ classes).filter (fun e => e.1 ≠ "")).length := by
  have hfiles : (buildFinishedOut md modules classes).files
      = ((sortKeys modules ++ sortKeys classes).filter (fun e => e.1 ≠ "")).map (mkOutFile md) := by
    show ((sortKeys modules ++ sortKeys classes).foldl (finStep md)
        { files := [], toc := [], msgs := [] }).files = _
    rw [finFold_files md (sortKeys modules ++ sortKeys classes)
      { files := [], toc := [], msgs := [] }]
    rfl
  have hperm := sorted_entries_perm modules classes
  constructor
  · intro n ys hmem hne
    have hmem' : (n, ys) ∈ sortKeys modules ++ sortKeys classes := hperm.mem_iff.mpr hmem
    have hmemf : (n, ys) ∈ (sortKeys modules ++ sortKeys classes).filter (fun e => e.1 ≠ "") :=
      List.mem_filter.mpr ⟨hmem', by simp [hne]⟩
    refine ⟨mkOutFile md (n, ys), ?_, rfl, rfl, ?_, ?_, ?_, ?_⟩
    · rw [hfiles]
      exact List.mem_map_of_mem (mkOutFile md) hmemf
    · show (processEntities md ys).2.1 = _
      rw [show (processEntities md ys).2.1 = ([] : List Reference)
          ++ (ys.map (fun o => o.references.getD [])).flatten from
        processEntities_refs md ys ([], [], [])]
      rfl
    · show ((ys.foldl (entStep md) ([], [], [])).1).length = ys.length
      rw [processEntities_items_len md ys ([], [], [])]
      simp
    · show ∀ it ∈ (processEntities md ys).1, it.references = none
      exact processEntities_items_refs md ys ([], [], []) (by intro it h; simp at h)
    · rw [hfiles, countP_mkOutFile md n hne (sortKeys modules ++ sortKeys classes),
        hperm.countP_eq (fun e => e.1 == n)]
      exact countP_key_eq_one (modules ++ classes) hnd ⟨ys, hmem⟩
  · rw [hfiles, List.length_map]
    exact (hperm.filter (fun e => e.1 ≠ "")).length_eq

/-- Witness for claim C8: one module m with its module record and one
class m.C with its class record yield the files m.yml and m.C.yml, the
m.yml count is one, its api_name is empty and its references are the
flattened per-record lists. -/
theorem c8_witness :
    ∃ f ∈ (buildFinishedOut [] [("m", [exModuleDatam])] [("m.C", [exClassDatam])]).files,
      f.path = "m" ++ ".yml"
      ∧ f.doc.api_name = []
      ∧ f.doc.references
          = ([exModuleDatam].map (fun o => o.references.getD [])).flatten
      ∧ f.doc.items.length = [exModuleDatam].length
      ∧ (∀ it ∈ f.doc.items, it.references = none)
      ∧ (buildFinishedOut [] [("m", [exModuleDatam])] [("m.C", [exClassDatam])]).files.countP
          (fun g => g.path == "m" ++ ".yml") = 1 :=
  (c8_output_files [] [("m", [exModuleDatam])] [("m.C", [exClassDatam])] (by decide)).1
    "m" [exModuleDatam] (by simp) (by decide)

/-! ### Linking pass lemmas (claims C1 and C2) -/

theorem lookupD_updateD_self {β : Type} :
    ∀ (m : List (String × β)) (k : String) (v w : β), lookupD m k = some w →
      lookupD (updateD m k v) k = some v := by
  intro m
  induction m with
  | nil => intro k v w h; simp [lookupD] at h
  | cons kv rest ih =>
    intro k v w h
    obtain ⟨k0, v0⟩ := kv
    by_cases h0 : k0 = k
    · simp [lookupD, updateD, h0]
    · simp only [lookupD, updateD, h0, if_false] at h ⊢
      exact ih k v w h

theorem lookupD_updateD_other {β : Type} :
    ∀ (m : List (String × β)) (k k' : String) (v : β), k' ≠ k →
      lookupD (updateD m k v) k' = lookupD m k' := by
  intro m
  induction m with
  | nil => intro k k' v h; rfl
  | cons kv rest ih =>
    intro k k' v h
    obtain ⟨k0, v0⟩ := kv
    by_cases h0 : k0 = k
    · subst h0
      have hne : k0 ≠ k' := fun hh => h hh.symm
      simp [lookupD, updateD, hne]
    · simp only [updateD, h0, if_false]
      by_cases h1 : k0 = k'
      · simp [lookupD, h1]
      · simp only [lookupD, h1, if_false]
        exact ih k k' v h

theorem updateD_self {β : Type} :
    ∀ (m : List (String × β)) (k : String) (v : β), lookupD m k = some v →
      updateD m k v = m := by
  intro m
  induction m with
  | nil => intro k v h; rfl
  | cons kv rest ih =>
    intro k v h
    obtain ⟨k0, v0⟩ := kv
    by_cases h0 : k0 = k
    · simp only [lookupD, h0, if_true] at h
      have hv := Option.some.inj h
      simp [updateD, h0, ← hv]
    · simp only [lookupD, h0, if_false] at h
      simp [updateD, h0, ih k v h]

theorem insertModuleList_first_match_function (datam m : Datam) :
    ∀ (l1 l2 : List Datam),
      (∀ x ∈ l1, ¬(x.dtype = "module" ∧ x.dmodule = datam.dmodule)) →
      m.dtype = "module" → m.dmodule = datam.dmodule →
      insertModuleList "function" datam (l1 ++ m :: l2)
        = l1 ++ addChildRef m datam :: l2 ++ [datam] := by
  intro l1
  induction l1 with
  | nil =>
    intro l2 _ hm1 hm2
    simp only [List.nil_append]
    rw [insertModuleList, if_pos ⟨rfl, hm1, hm2⟩]
  | cons x l1 ih =>
    intro l2 hl hm1 hm2
    have hx := hl x (List.mem_cons_self x l1)
    have hc1 : ¬("function" = "function" ∧ x.dtype = "module" ∧ x.dmodule = datam.dmodule) := by
      rintro ⟨-, h1, h2⟩
      exact hx ⟨h1, h2⟩
    have hc2 : ¬(("function" = "class" ∨ "function" = "exception")
        ∧ x.dtype = "module" ∧ x.dmodule = datam.dmodule) := by
      rintro ⟨hty, -⟩
      rcases hty with h | h <;> simp at h
    rw [List.cons_append, insertModuleList, if_neg hc1, if_neg hc2,
      ih l2 (fun y hy => hl y (List.mem_cons_of_mem x hy)) hm1 hm2]
    rfl

theorem insertModuleList_first_match_cls (ty : String) (hty : ty = "class" ∨ ty = "exception")
    (datam m : Datam) :
    ∀ (l1 l2 : List Datam),
      (∀ x ∈ l1, ¬(x.dtype = "module" ∧ x.dmodule = datam.dmodule)) →
      m.dtype = "module" → m.dmodule = datam.dmodule →
      insertModuleList ty datam (l1 ++ m :: l2) = l1 ++ addChildRef m datam :: l2 := by
  have htyf : ¬(ty = "function") := by
    rcases hty with h | h <;> subst h <;> simp
  intro l1
  induction l1 with
  | nil =>
    intro l2 _ hm1 hm2
    simp only [List.nil_append]
    rw [insertModuleList, if_neg (fun hc => htyf hc.1), if_pos ⟨hty, hm1, hm2⟩]
  | cons x l1 ih =>
    intro l2 hl hm1 hm2
    have hx := hl x (List.mem_cons_self x l1)
    have hc1 : ¬(ty = "function" ∧ x.dtype = "module" ∧ x.dmodule = datam.dmodule) :=
      fun hc => htyf hc.1
    have hc2 : ¬((ty = "class" ∨ ty = "exception")
        ∧ x.dtype = "module" ∧ x.dmodule = datam.dmodule) := by
      rintro ⟨-, h1, h2⟩
      exact hx ⟨h1, h2⟩
    rw [List.cons_append, insertModuleList, if_neg hc1, if_neg hc2,
      ih l2 (fun y hy => hl y (List.mem_cons_of_mem x hy)) hm1 hm2]
    rfl

theorem insertModuleList_no_match (ty : String) (datam : Datam) :
    ∀ lst : List Datam,
      (∀ x ∈ lst, ¬(x.dtype = "module" ∧ x.dmodule = datam.dmodule)) →
      insertModuleList ty datam lst = lst := by
  intro lst
  induction lst with
  | nil => intro _; rfl
  | cons x lst ih =>
    intro hl
    have hx := hl x (List.mem_cons_self x lst)
    rw [insertModuleList, if_neg (fun hc => hx ⟨hc.2.1, hc.2.2⟩),
      if_neg (fun hc => hx ⟨hc.2.1, hc.2.2⟩),
      ih (fun y hy => hl y (List.mem_cons_of_mem x hy))]

/-- Counterexample for claim C2: a method record whose owning class has
no entry in the class dictionary makes insert_children_on_class raise a
KeyError rather than being silently skipped; and an unmatched
module-level child is skipped with no diagnostic at all, state and
message list unchanged. -/
theorem c2_counterexample :
    insertClassPass [] "method" exMethDatam = ([], some ("KeyError: " ++ "m.C"))
    ∧ processDocstring { modules := [], classes := [] }
        { ty := "function", name := "m.f", obj := exObj, lines := [] }
      = ({ modules := [], classes := [] }, [], none) :=
  ⟨rfl, rfl⟩

/-- Claim C2, amended: in the module-level pass the first matching
module record wins (functions are additionally appended to the scanned
list) and an unmatched child is skipped silently, with no diagnostic;
in the class-level pass a child whose class key is absent raises a
KeyError that aborts the event, a present key with no matching class
record is skipped silently, and when matches exist every matching class
record receives the child, not only the first. -/
theorem c2_linking_behaviour :
    (∀ (datam m : Datam) (l1 l2 : List Datam),
      (∀ x ∈ l1, ¬(x.dtype = "module" ∧ x.dmodule = datam.dmodule)) →
      m.dtype = "module" → m.dmodule = datam.dmodule →
      insertModuleList "function" datam (l1 ++ m :: l2)
        = l1 ++ addChildRef m datam :: l2 ++ [datam]
      ∧ ∀ ty, (ty = "class" ∨ ty = "exception") →
          insertModuleList ty datam (l1 ++ m :: l2) = l1 ++ addChildRef m datam :: l2)
    ∧ (∀ (ty : String) (datam : Datam) (lst : List Datam),
        (∀ x ∈ lst, ¬(x.dtype = "module" ∧ x.dmodule = datam.dmodule)) →
        insertModuleList ty datam lst = lst)
    ∧ (∀ (env : Env) (name : String),
        falsy (getClsModule "function" name).2 = false →
        lookupD env.modules (joinDots (dotSegs name).dropLast) = none →
        processDocstring env { ty := "function", name := name, obj := exObj, lines := [] }
          = (env, [], none))
    ∧ (∀ (classes : List (String × List Datam)) (ty : String) (datam : Datam) (c : String),
        datam.cls = some c → lookupD classes c = none →
        insertClassPass classes ty datam = (classes, some ("KeyError: " ++ c)))
    ∧ (∀ (classes : List (String × List Datam)) (ty : String) (datam : Datam)
        (c : String) (lst : List Datam),
        datam.cls = some c → lookupD classes c = some lst →
        (insertClassPass classes ty datam).2 = none
        ∧ ∀ (i : Nat) (obj : Datam), lst[i]? = some obj → classHit ty datam obj = true →
            ∃ lst', lookupD (insertClassPass classes ty datam).1 c = some lst'
              ∧ lst'[i]? = some (addChildRef obj datam))
    ∧ (∀ (classes : List (String × List Datam)) (ty : String) (datam : Datam)
        (c : String) (lst : List Datam),
        datam.cls = some c → lookupD classes c = some lst →
        (∀ obj ∈ lst, classHit ty datam obj = false) →
        insertClassPass classes ty datam = (classes, none)) := by
  refine ⟨?_, ?_, ?_, ?_, ?_, ?_⟩
  · intro datam m l1 l2 hl hm1 hm2
    exact ⟨insertModuleList_first_match_function datam m l1 l2 hl hm1 hm2,
      fun ty hty => insertModuleList_first_match_cls ty hty datam m l1 l2 hl hm1 hm2⟩
  · exact insertModuleList_no_match
  · intro env name hf hlk
    have hg : getClsModule "function" name
        = (none, some (joinDots (dotSegs name).dropLast)) := by
      simp [getClsModule]
    rw [hg] at hf
    simp [processDocstring, hg, hf, insertModulePass, insertClassPass, createDatam,
      buildArgs, transformString, insertInheritance, exObj, hlk]
  · intro classes ty datam c hc hlk
    simp only [insertClassPass, hc, hlk]
  · intro classes ty datam c lst hc hlk
    have hres : insertClassPass classes ty datam
        = (updateD classes c
            (lst.map (fun obj => if classHit ty datam obj then addChildRef obj datam else obj)
              ++ List.replicate (lst.countP (fun obj => classHit ty datam obj)) datam), none) := by
      simp only [insertClassPass, hc, hlk]
    constructor
    · rw [hres]
    · intro i obj hobj hhit
      have hilt : i < lst.length := by
        by_contra hge
        rw [List.getElem?_eq_none (by omega)] at hobj
        exact Option.noConfusion hobj
      refine ⟨lst.map (fun obj => if classHit ty datam obj then addChildRef obj datam else obj)
          ++ List.replicate (lst.countP (fun obj => classHit ty datam obj)) datam, ?_, ?_⟩
      · rw [hres]
        exact lookupD_updateD_self classes c _ lst hlk
      · rw [List.getElem?_append, if_pos (by simp [hilt]), List.getElem?_map, hobj]
        simp [hhit]
  · intro classes ty datam c lst hc hlk hnone
    simp only [insertClassPass, hc, hlk]
    have hmap : lst.map (fun obj => if classHit ty datam obj then addChildRef obj datam else obj)
        = lst := by
      rw [List.map_congr_left (fun obj hobj => by rw [if_neg]; simp [hnone obj hobj])]
      exact List.map_id lst
    have hcnt : lst.countP (fun obj => classHit ty datam obj) = 0 :=
      List.countP_eq_zero.mpr (fun obj hobj => by simp [hnone obj hobj])
    rw [hmap, hcnt, List.replicate_zero, List.append_nil, updateD_self classes c lst hlk]

/-- Witness for the amended claim C2: linking the function record m.f
into a module list holding exactly the module record of m appends the
child uid to that record and the function record to the list. -/
theorem c2_witness :
    insertModuleList "function" exFuncDatam ([] ++ exModuleDatam :: [])
      = [] ++ addChildRef exModuleDatam exFuncDatam :: [] ++ [exFuncDatam] :=
  (c2_linking_behaviour.1 exFuncDatam exModuleDatam [] []
    (by intro x hx; simp at hx) (by decide) (by decide)).1

theorem classesFirstAux_append (e : Event) :
    ∀ (evs : List Event) (s : List String),
      classesFirstAux s (evs ++ [e])
        = (classesFirstAux s evs && okEvent (evs.foldl seenAfter s) e) := by
  intro evs
  induction evs with
  | nil => intro s; simp [classesFirstAux]
  | cons f evs ih =>
    intro s
    simp only [List.cons_append, classesFirstAux, List.append_eq]
    rw [ih (seenAfter s f), List.foldl_cons, Bool.and_assoc]

theorem contains_foldl_seenAfter :
    ∀ (evs : List Event) (s : List String) (a : String),
      s.contains a = true → (evs.foldl seenAfter s).contains a = true := by
  intro evs
  induction evs with
  | nil => intro s a h; exact h
  | cons f evs ih =>
    intro s a h
    rw [List.foldl_cons]
    refine ih (seenAfter s f) a ?_
    unfold seenAfter
    split
    · simp at h ⊢
      exact Or.inl h
    · exact h

theorem classesFirst_meth_final :
    ∀ (evs : List Event) (s : List String), classesFirstAux s evs = true →
      ∀ e ∈ evs, isMeth e = true →
        regEvent e = true ∧ (evs.foldl seenAfter s).contains (clsOf e) = true := by
  intro evs
  induction evs with
  | nil => intro s _ e he; simp at he
  | cons f evs ih =>
    intro s h e he hm
    rw [classesFirstAux, Bool.and_eq_true] at h
    rcases List.mem_cons.mp he with rfl | hmem
    · rw [okEvent, if_pos hm, Bool.and_eq_true] at h
      refine ⟨h.1.1, ?_⟩
      rw [List.foldl_cons]
      exact contains_foldl_seenAfter evs (seenAfter s e) (clsOf e) (by
        unfold seenAfter
        split
        · have hin := h.1.2
          simp at hin ⊢
          exact Or.inl hin
        · exact h.1.2)
    · rw [List.foldl_cons]
      exact ih (seenAfter s f) h.2 e hmem hm

theorem mem_foldl_seenAfter :
    ∀ (evs : List Event) (s : List String) (a : String),
      a ∈ evs.foldl seenAfter s →
      a ∈ s ∨ ∃ e ∈ evs, e.ty = "class" ∧ regEvent e = true ∧ e.name = a := by
  intro evs
  induction evs with
  | nil => intro s a h; exact Or.inl h
  | cons f evs ih =>
    intro s a h
    rw [List.foldl_cons] at h
    rcases ih (seenAfter s f) a h with hs | ⟨e, he, hprops⟩
    · unfold seenAfter at hs
      split at hs
      · rename_i hcond
        rw [Bool.and_eq_true, beq_iff_eq] at hcond
        rcases List.mem_append.mp hs with h1 | h1
        · exact Or.inl h1
        · exact Or.inr ⟨f, List.mem_cons_self f evs,
            hcond.1, hcond.2, (List.mem_singleton.mp h1).symm⟩
      · exact Or.inl hs
    · exact Or.inr ⟨e, List.mem_cons_of_mem f he, hprops⟩

theorem classesFirst_prior_class (evs : List Event) (hcf : classesFirst evs = true)
    (e : Event) (he : e ∈ evs) (hm : isMeth e = true) :
    regEvent e = true
    ∧ ∃ f ∈ evs, f.ty = "class" ∧ regEvent f = true ∧ f.name = clsOf e := by
  obtain ⟨hreg, hcont⟩ := classesFirst_meth_final evs [] hcf e he hm
  refine ⟨hreg, ?_⟩
  have hmem : clsOf e ∈ evs.foldl seenAfter [] := by
    simpa using hcont
  rcases mem_foldl_seenAfter evs [] (clsOf e) hmem with h | ⟨f, hf, h1, h2, h3⟩
  · simp at h
  · exact ⟨f, hf, h1, h2, h3⟩

theorem processDocstring_falsy (env : Env) (e : Event)
    (h : falsy (getClsModule e.ty e.name).2 = true) :
    processDocstring env e = (env, ["Unknown Type: " ++ e.ty], none) := by
  simp [processDocstring, h]

theorem insertInheritance_fields (obj : PyObj) (d : Datam) :
    (insertInheritance obj d).cls = d.cls ∧ (insertInheritance obj d).dtype = d.dtype
    ∧ (insertInheritance obj d).children = d.children
    ∧ (insertInheritance obj d).uid = d.uid
    ∧ (insertInheritance obj d).dmodule = d.dmodule := by
  unfold insertInheritance
  split <;> exact ⟨rfl, rfl, rfl, rfl, rfl⟩

theorem getClsModule_cls_none (ty name : String) (h1 : ¬(ty = "method" ∨ ty = "attribute"))
    (h2 : ty ≠ "class") : (getClsModule ty name).1 = none := by
  by_cases c1 : ty = "function" ∨ ty = "exception"
  · simp [getClsModule, c1]
  · by_cases c2 : ty = "method" ∨ ty = "attribute"
    · exact absurd c2 h1
    · by_cases c4 : ty = "module"
      · simp [getClsModule, c1, c2, h2, c4]
      · simp [getClsModule, c1, c2, h2, c4]

theorem getClsModule_class (n : String) :
    getClsModule "class" n = (some n, some (joinDots (dotSegs n).dropLast)) := by
  simp [getClsModule]

theorem getClsModule_meth_event (e : Event) (h : e.ty = "method" ∨ e.ty = "attribute") :
    getClsModule e.ty e.name
      = (some (clsOf e), some (joinDots (dotSegs e.name).dropLast.dropLast)) := by
  unfold clsOf
  rcases h with h | h <;> rw [h] <;> simp [getClsModule]

theorem name_ne_empty_of_module (n : String)
    (h : falsy (some (joinDots (dotSegs n).dropLast)) = false) : n ≠ "" := by
  intro hn
  subst hn
  exact absurd h (by decide)

theorem lookupD_append_right {β : Type} :
    ∀ (m : List (String × β)) (k : String) (v : β), lookupD m k = none →
      lookupD (m ++ [(k, v)]) k = some v := by
  intro m
  induction m with
  | nil => intro k v _; simp [lookupD]
  | cons kv rest ih =>
    intro k v h
    obtain ⟨k0, v0⟩ := kv
    by_cases h0 : k0 = k
    · simp [lookupD, h0] at h
    · simp only [lookupD, h0, if_false] at h
      simp only [List.cons_append, lookupD, h0, if_false]
      exact ih k v h

theorem lookupD_append_other {β : Type} :
    ∀ (m : List (String × β)) (k c : String) (v : β), c ≠ k →
      lookupD (m ++ [(k, v)]) c = lookupD m c := by
  intro m
  induction m with
  | nil =>
    intro k c v h
    have hkc : ¬k = c := fun hh => h hh.symm
    simp [lookupD, hkc]
  | cons kv rest ih =>
    intro k c v h
    obtain ⟨k0, v0⟩ := kv
    by_cases h0 : k0 = c
    · simp [lookupD, h0]
    · simp only [List.cons_append, lookupD, h0, if_false]
      exact ih k c v h

theorem addEntry_fresh {β : Type} (m : List (String × List β)) (k : String) (v : β)
    (h : lookupD m k = none) : addEntry m k v = m ++ [(k, [v])] := by
  simp [addEntry, h]

theorem addEntry_lookup_other {β : Type} (m : List (String × List β)) (k c : String) (v : β)
    (hne : c ≠ k) : lookupD (addEntry m k v) c = lookupD m c := by
  unfold addEntry
  cases h : lookupD m k with
  | none => exact lookupD_append_other m k c [v] hne
  | some lst => exact lookupD_updateD_other m k c (lst ++ [v]) hne

theorem processDocstring_other (env : Env) (e : Event) (hm : isMeth e = false)
    (hc : e.ty ≠ "class") :
    (processDocstring env e).1.classes = env.classes
    ∧ (processDocstring env e).2.2 = none := by
  by_cases hf : falsy (getClsModule e.ty e.name).2 = true
  · rw [processDocstring_falsy env e hf]
    exact ⟨rfl, rfl⟩
  · have hmeth : ¬(e.ty = "method" ∨ e.ty = "attribute") := by
      simp [isMeth] at hm
      rintro (h | h)
      · exact hm.1 h
      · exact hm.2 h
    have hclsn : (getClsModule e.ty e.name).1 = none :=
      getClsModule_cls_none e.ty e.name hmeth hc
    have hdcls : (insertInheritance e.obj
        (createDatam (getClsModule e.ty e.name).1 ((getClsModule e.ty e.name).2.getD "")
          e.name e.ty e.obj e.lines).1).cls = none := by
      rw [(insertInheritance_fields e.obj _).1, hclsn]
      rfl
    simp only [processDocstring]
    rw [if_neg hf]
    constructor
    · dsimp only
      simp only [insertClassPass, hdcls]
      rw [if_neg hc]
    · dsimp only
      simp only [insertClassPass, hdcls]

theorem createDatam_fields (cls : Option String) (mdl name ty : String) (obj : PyObj)
    (lines : List String) :
    (createDatam cls mdl name ty obj lines).1.dtype = ty
    ∧ (createDatam cls mdl name ty obj lines).1.uid = name
    ∧ (createDatam cls mdl name ty obj lines).1.dmodule = mdl
    ∧ (createDatam cls mdl name ty obj lines).1.children
        = (if ty = "class" ∨ ty = "module" then some [] else none)
    ∧ (createDatam cls mdl name ty obj lines).1.cls
        = (match cls with
           | some c => if c ≠ "" then some c else none
           | none => none) :=
  ⟨rfl, rfl, rfl, rfl, rfl⟩

theorem processDocstring_class (env : Env) (e : Event) (hty : e.ty = "class")
    (hreg : regEvent e = true) (hfresh : lookupD env.classes e.name = none) :
    ∃ d : Datam, d.dtype = "class" ∧ d.cls = some e.name ∧ d.children = some []
      ∧ (processDocstring env e).1.classes = env.classes ++ [(e.name, [d])]
      ∧ (processDocstring env e).2.2 = none := by
  have hf : falsy (getClsModule e.ty e.name).2 = false := by
    unfold regEvent at hreg
    simpa using hreg
  have hg : getClsModule e.ty e.name
      = (some e.name, some (joinDots (dotSegs e.name).dropLast)) := by
    rw [hty]
    exact getClsModule_class e.name
  have hne : e.name ≠ "" := by
    refine name_ne_empty_of_module e.name ?_
    rw [hg] at hf
    exact hf
  have harg1 : (getClsModule e.ty e.name).1 = some e.name := by rw [hg]
  have harg2 : (getClsModule e.ty e.name).1.getD "" = e.name := by
    rw [harg1]
    rfl
  set d0 : Datam := insertInheritance e.obj
      (createDatam (getClsModule e.ty e.name).1 ((getClsModule e.ty e.name).2.getD "")
        e.name e.ty e.obj e.lines).1 with hd0
  have hfields := insertInheritance_fields e.obj
      (createDatam (getClsModule e.ty e.name).1 ((getClsModule e.ty e.name).2.getD "")
        e.name e.ty e.obj e.lines).1
  have hdty : d0.dtype = "class" := by
    rw [hd0, hfields.2.1, (createDatam_fields _ _ _ _ _ _).1, hty]
  have hdcls : d0.cls = some e.name := by
    rw [hd0, hfields.1, harg1, (createDatam_fields _ _ _ _ _ _).2.2.2.2]
    simp [hne]
  have hdch : d0.children = some [] := by
    rw [hd0, hfields.2.2.1, (createDatam_fields _ _ _ _ _ _).2.2.2.1, if_pos (Or.inl hty)]
  have hhit : ∀ r : Datam, classHit e.ty d0 r = false := by
    intro r
    simp [classHit, hty]
  refine ⟨d0, hdty, hdcls, hdch, ?_, ?_⟩
  · simp only [processDocstring]
    rw [if_neg (by rw [hf]; simp)]
    dsimp only
    rw [← hd0, if_pos hty, harg2, addEntry_fresh env.classes e.name d0 hfresh]
    simp only [insertClassPass, hdcls]
    rw [lookupD_append_right env.classes e.name [d0] hfresh]
    dsimp only
    simp only [hhit, if_false, List.map_cons, List.map_nil, List.countP_cons, List.countP_nil,
      Bool.false_eq_true, List.replicate, List.append_nil]
    rw [updateD_self _ e.name [d0] (lookupD_append_right env.classes e.name [d0] hfresh)]
  · simp only [processDocstring]
    rw [if_neg (by rw [hf]; simp)]
    dsimp only
    rw [← hd0, if_pos hty, harg2, addEntry_fresh env.classes e.name d0 hfresh]
    simp only [insertClassPass, hdcls]
    rw [lookupD_append_right env.classes e.name [d0] hfresh]

theorem processDocstring_meth (env : Env) (e : Event) (hm : isMeth e = true)
    (hreg : regEvent e = true) (hcne : clsOf e ≠ "") (lst : List Datam)
    (hkey : lookupD env.classes (clsOf e) = some lst) :
    ∃ d : Datam, d.uid = e.name ∧ d.dtype = e.ty ∧ d.cls = some (clsOf e)
      ∧ (processDocstring env e).1.classes
          = updateD env.classes (clsOf e)
              (lst.map (fun r => if classHit e.ty d r then addChildRef r d else r)
                ++ List.replicate (lst.countP (fun r => classHit e.ty d r)) d)
      ∧ (processDocstring env e).2.2 = none := by
  have htym : e.ty = "method" ∨ e.ty = "attribute" := by
    simpa [isMeth] using hm
  have hf : falsy (getClsModule e.ty e.name).2 = false := by
    unfold regEvent at hreg
    simpa using hreg
  have hg := getClsModule_meth_event e htym
  have htyc : e.ty ≠ "class" := by
    rcases htym with h | h <;> rw [h] <;> simp
  have harg1 : (getClsModule e.ty e.name).1 = some (clsOf e) := by rw [hg]
  set d0 : Datam := insertInheritance e.obj
      (createDatam (getClsModule e.ty e.name).1 ((getClsModule e.ty e.name).2.getD "")
        e.name e.ty e.obj e.lines).1 with hd0
  have hfields := insertInheritance_fields e.obj
      (createDatam (getClsModule e.ty e.name).1 ((getClsModule e.ty e.name).2.getD "")
        e.name e.ty e.obj e.lines).1
  have hduid : d0.uid = e.name := by
    rw [hd0, hfields.2.2.2.1, (createDatam_fields _ _ _ _ _ _).2.1]
  have hdty : d0.dtype = e.ty := by
    rw [hd0, hfields.2.1, (createDatam_fields _ _ _ _ _ _).1]
  have hdcls : d0.cls = some (clsOf e) := by
    rw [hd0, hfields.1, harg1, (createDatam_fields _ _ _ _ _ _).2.2.2.2]
    simp [hcne]
  refine ⟨d0, hduid, hdty, hdcls, ?_, ?_⟩
  · simp only [processDocstring]
    rw [if_neg (by rw [hf]; simp)]
    dsimp only
    rw [← hd0, if_neg htyc]
    simp only [insertClassPass, hdcls]
    rw [hkey]
  · simp only [processDocstring]
    rw [if_neg (by rw [hf]; simp)]
    dsimp only
    rw [← hd0, if_neg htyc]
    simp only [insertClassPass, hdcls]
    rw [hkey]

theorem runEvents_append (evs : List Event) (e : Event) :
    runEvents (evs ++ [e]) = stepEvent (runEvents evs) e := by
  unfold runEvents
  rw [List.foldl_append]
  rfl

theorem seenOf_append (evs : List Event) (e : Event) :
    seenOf (evs ++ [e]) = seenAfter (seenOf evs) e := by
  unfold seenOf
  rw [List.foldl_append]
  rfl

theorem addChildRef_fields (obj d : Datam) :
    (addChildRef obj d).dtype = obj.dtype ∧ (addChildRef obj d).cls = obj.cls
    ∧ (addChildRef obj d).children = obj.children.map (fun ch => ch ++ [d.uid]) :=
  ⟨rfl, rfl, rfl⟩

theorem methUids_append_other (evs : List Event) (e : Event) (c : String)
    (h : ¬(isMeth e = true ∧ regEvent e = true ∧ clsOf e = c)) :
    methUids (evs ++ [e]) c = methUids evs c := by
  unfold methUids
  rw [List.filter_append]
  have hpe : (isMeth e && regEvent e && (clsOf e == c)) = false := by
    by_cases h1 : isMeth e = true
    · by_cases h2 : regEvent e = true
      · by_cases h3 : clsOf e = c
        · exact absurd ⟨h1, h2, h3⟩ h
        · simp [h1, h2, h3]
      · simp [h2]
    · simp [h1]
  have hnilf : List.filter (fun e2 => isMeth e2 && regEvent e2 && (clsOf e2 == c)) [e] = [] := by
    simp [List.filter, hpe]
  rw [hnilf, List.append_nil]

theorem methUids_append_meth (evs : List Event) (e : Event) (c : String)
    (h1 : isMeth e = true) (h2 : regEvent e = true) (h3 : clsOf e = c) :
    methUids (evs ++ [e]) c = methUids evs c ++ [e.name] := by
  unfold methUids
  rw [List.filter_append, List.map_append]
  have hpe : (isMeth e && regEvent e && (clsOf e == c)) = true := by
    simp [h1, h2, h3]
  have hone : List.filter (fun e2 => isMeth e2 && regEvent e2 && (clsOf e2 == c)) [e] = [e] := by
    simp [List.filter, hpe]
  rw [hone]
  rfl

theorem runEvents_invariant :
    ∀ (evs : List Event), (evs.map (fun e => e.name)).Nodup → classesFirst evs = true →
      (runEvents evs).err = none
      ∧ (∀ c : String, (lookupD (runEvents evs).env.classes c).isSome = (seenOf evs).contains c)
      ∧ (∀ c lst, lookupD (runEvents evs).env.classes c = some lst →
          (∃ r ∈ lst, r.dtype = "class")
          ∧ ∀ r ∈ lst, r.dtype = "class" →
              r.cls = some c ∧ r.children = some (methUids evs c)) := by
  intro evs
  induction evs using List.reverseRecOn with
  | nil =>
    intro _ _
    refine ⟨rfl, fun c => rfl, fun c lst h => Option.noConfusion h⟩
  | append_singleton evs e ih =>
    intro hnd hcf
    have hndsplit : ((evs.map (fun e2 => e2.name)) ++ [e.name]).Nodup := by
      simpa using hnd
    obtain ⟨hnd1, -, hdisj⟩ := List.nodup_append.mp hndsplit
    have hnotin : e.name ∉ evs.map (fun e2 => e2.name) := fun hin =>
      hdisj hin (List.mem_singleton.mpr rfl)
    have hcf1 : classesFirst evs = true ∧ okEvent (seenOf evs) e = true := by
      have hh := hcf
      unfold classesFirst at hh
      rw [classesFirstAux_append e evs []] at hh
      exact Bool.and_eq_true _ _ ▸ hh
    obtain ⟨hcfp, hok⟩ := hcf1
    obtain ⟨iherr, ihsome, ihrec⟩ := ih hnd1 hcfp
    have herreq : (runEvents (evs ++ [e])).err
        = (processDocstring (runEvents evs).env e).2.2 := by
      rw [runEvents_append]
      unfold stepEvent
      rw [iherr]
    have hclseq : (runEvents (evs ++ [e])).env.classes
        = (processDocstring (runEvents evs).env e).1.classes := by
      rw [runEvents_append]
      unfold stepEvent
      rw [iherr]
    by_cases hme : isMeth e = true
    · -- a method or attribute event, necessarily registered with its class present
      have htym : e.ty = "method" ∨ e.ty = "attribute" := by
        simpa [isMeth] using hme
      have hok2 : regEvent e = true ∧ (seenOf evs).contains (clsOf e) = true := by
        rw [okEvent, if_pos hme] at hok
        exact Bool.and_eq_true _ _ ▸ hok
      have hkeysome : (lookupD (runEvents evs).env.classes (clsOf e)).isSome = true := by
        rw [ihsome (clsOf e)]
        exact hok2.2
      obtain ⟨lst, hkey⟩ := Option.isSome_iff_exists.mp hkeysome
      have hcmem : clsOf e ∈ seenOf evs := by simpa using hok2.2
      have hcne : clsOf e ≠ "" := by
        rcases mem_foldl_seenAfter evs [] (clsOf e) hcmem with hmem0 | ⟨f, hf, hfty, hfreg, hfname⟩
        · simp at hmem0
        · have hffalsy : falsy (getClsModule f.ty f.name).2 = false := by
            unfold regEvent at hfreg
            simpa using hfreg
          rw [hfty, getClsModule_class] at hffalsy
          rw [← hfname]
          exact name_ne_empty_of_module f.name hffalsy
      obtain ⟨d, hduid, hdty, hdcls, hclasses, herr⟩ :=
        processDocstring_meth (runEvents evs).env e hme hok2.1 hcne lst hkey
      have htyc : e.ty ≠ "class" := by
        rcases htym with h | h <;> rw [h] <;> simp
      have hseen : seenOf (evs ++ [e]) = seenOf evs := by
        rw [seenOf_append]
        unfold seenAfter
        rw [if_neg]
        simp only [Bool.and_eq_true, beq_iff_eq]
        rintro ⟨h1, -⟩
        exact htyc h1
      refine ⟨by rw [herreq, herr], ?_, ?_⟩
      · intro c
        rw [hclseq, hclasses, hseen]
        by_cases hcc : c = clsOf e
        · rw [hcc, lookupD_updateD_self (runEvents evs).env.classes (clsOf e) _ lst hkey]
          exact hok2.2.symm
        · rw [lookupD_updateD_other (runEvents evs).env.classes (clsOf e) c _ hcc]
          exact ihsome c
      · intro c lst' hlook
        rw [hclseq, hclasses] at hlook
        by_cases hcc : c = clsOf e
        · rw [hcc] at hlook ⊢
          rw [lookupD_updateD_self (runEvents evs).env.classes (clsOf e) _ lst hkey] at hlook
          obtain rfl := (Option.some.inj hlook)
          obtain ⟨hex, hall⟩ := ihrec (clsOf e) lst hkey
          have hmuids : methUids (evs ++ [e]) (clsOf e) = methUids evs (clsOf e) ++ [e.name] :=
            methUids_append_meth evs e (clsOf e) hme hok2.1 rfl
          constructor
          · obtain ⟨r, hr, hrty⟩ := hex
            have hrcls : r.cls = some (clsOf e) := (hall r hr hrty).1
            have hhit : classHit e.ty d r = true := by
              simp [classHit, hrty, htym, hrcls, hdcls]
            refine ⟨addChildRef r d, ?_, ?_⟩
            · refine List.mem_append_left _ ?_
              exact List.mem_map.mpr ⟨r, hr, by rw [if_pos hhit]⟩
            · rw [(addChildRef_fields r d).1]
              exact hrty
          · intro r' hr' hrty'
            rcases List.mem_append.mp hr' with hmap | hrep
            · obtain ⟨r, hr, hfr⟩ := List.mem_map.mp hmap
              by_cases hrc : r.dtype = "class"
              · have hrcls := (hall r hr hrc).1
                have hrch := (hall r hr hrc).2
                have hhit : classHit e.ty d r = true := by
                  simp [classHit, hrc, htym, hrcls, hdcls]
                rw [if_pos hhit] at hfr
                constructor
                · rw [← hfr, (addChildRef_fields r d).2.1]
                  exact hrcls
                · rw [← hfr, (addChildRef_fields r d).2.2, hrch, hmuids, hduid]
                  rfl
              · have hhit : classHit e.ty d r = false := by
                  simp [classHit, hrc]
                rw [if_neg (by simp [hhit])] at hfr
                rw [← hfr] at hrty'
                exact absurd hrty' hrc
            · have hrd : r' = d := List.eq_of_mem_replicate hrep
              rw [hrd, hdty] at hrty'
              exact absurd hrty' htyc
        · rw [lookupD_updateD_other (runEvents evs).env.classes (clsOf e) c _ hcc] at hlook
          obtain ⟨hex, hall⟩ := ihrec c lst' hlook
          have hmuids : methUids (evs ++ [e]) c = methUids evs c := by
            refine methUids_append_other evs e c ?_
            rintro ⟨-, -, h3⟩
            exact hcc h3.symm
          refine ⟨hex, fun r hr hrty => ⟨(hall r hr hrty).1, ?_⟩⟩
          rw [hmuids]
          exact (hall r hr hrty).2
    · -- not a method or attribute event
      have hmef : isMeth e = false := by
        cases hb : isMeth e
        · rfl
        · exact absurd hb hme
      have hnotmeth : ∀ c, methUids (evs ++ [e]) c = methUids evs c := by
        intro c
        refine methUids_append_other evs e c ?_
        rintro ⟨hcon, -⟩
        rw [hmef] at hcon
        exact Bool.noConfusion hcon
      by_cases hclass : e.ty = "class"
      · by_cases hreg : regEvent e = true
        · -- a registered class event on a fresh key
          have hnameseen : e.name ∉ seenOf evs := by
            intro hin
            rcases mem_foldl_seenAfter evs [] e.name hin with hmem0 | ⟨f, hf, -, -, hfname⟩
            · simp at hmem0
            · exact hnotin (hfname ▸ List.mem_map.mpr ⟨f, hf, rfl⟩)
          have hfresh : lookupD (runEvents evs).env.classes e.name = none := by
            rw [← Option.not_isSome_iff_eq_none, ihsome e.name]
            intro hcontains
            exact hnameseen (by simpa using hcontains)
          obtain ⟨d, hdty, hdcls, hdch, hclasses, herr⟩ :=
            processDocstring_class (runEvents evs).env e hclass hreg hfresh
          have hseen : seenOf (evs ++ [e]) = seenOf evs ++ [e.name] := by
            rw [seenOf_append]
            unfold seenAfter
            rw [if_pos (by simp [hclass, hreg])]
          have hmeths : methUids evs e.name = [] := by
            unfold methUids
            rw [List.filter_eq_nil_iff.mpr ?_, List.map_nil]
            intro m hm hpm
            simp only [Bool.and_eq_true, beq_iff_eq] at hpm
            obtain ⟨⟨hm1, -⟩, hm3⟩ := hpm
            obtain ⟨-, f, hfmem, -, -, hfname⟩ :=
              classesFirst_prior_class evs hcfp m hm hm1
            rw [hm3] at hfname
            exact hnotin (hfname ▸ List.mem_map.mpr ⟨f, hfmem, rfl⟩)
          refine ⟨by rw [herreq, herr], ?_, ?_⟩
          · intro c
            rw [hclseq, hclasses, hseen]
            by_cases hcc : c = e.name
            · rw [hcc, lookupD_append_right (runEvents evs).env.classes e.name [d] hfresh]
              simp
            · rw [lookupD_append_other (runEvents evs).env.classes e.name c [d]
                (fun hh => hcc hh), ihsome c]
              simp [hcc]
          · intro c lst' hlook
            rw [hclseq, hclasses] at hlook
            by_cases hcc : c = e.name
            · rw [hcc] at hlook ⊢
              rw [lookupD_append_right (runEvents evs).env.classes e.name [d] hfresh] at hlook
              obtain rfl := (Option.some.inj hlook)
              have hmuids : methUids (evs ++ [e]) e.name = [] := by
                rw [hnotmeth e.name, hmeths]
              refine ⟨⟨d, List.mem_singleton.mpr rfl, hdty⟩, ?_⟩
              intro r hr _
              rw [List.mem_singleton.mp hr]
              exact ⟨hdcls, by rw [hdch, hmuids]⟩
            · rw [lookupD_append_other (runEvents evs).env.classes e.name c [d]
                (fun hh => hcc hh)] at hlook
              obtain ⟨hex, hall⟩ := ihrec c lst' hlook
              refine ⟨hex, fun r hr hrty => ⟨(hall r hr hrty).1, ?_⟩⟩
              rw [hnotmeth c]
              exact (hall r hr hrty).2
        · -- an unregistered class event is skipped entirely
          have hfalsy : falsy (getClsModule e.ty e.name).2 = true := by
            unfold regEvent at hreg
            simpa using hreg
          have hskip := processDocstring_falsy (runEvents evs).env e hfalsy
          have hseen : seenOf (evs ++ [e]) = seenOf evs := by
            rw [seenOf_append]
            unfold seenAfter
            rw [if_neg]
            simp only [Bool.and_eq_true, beq_iff_eq]
            rintro ⟨-, h2⟩
            exact hreg h2
          refine ⟨by rw [herreq, hskip], ?_, ?_⟩
          · intro c
            rw [hclseq, hskip, hseen]
            exact ihsome c
          · intro c lst' hlook
            rw [hclseq, hskip] at hlook
            obtain ⟨hex, hall⟩ := ihrec c lst' hlook
            refine ⟨hex, fun r hr hrty => ⟨(hall r hr hrty).1, ?_⟩⟩
            rw [hnotmeth c]
            exact (hall r hr hrty).2
      · -- function, exception, module or unknown events leave the classes alone
        obtain ⟨hclasses, herr⟩ := processDocstring_other (runEvents evs).env e hmef hclass
        have hseen : seenOf (evs ++ [e]) = seenOf evs := by
          rw [seenOf_append]
          unfold seenAfter
          rw [if_neg]
          simp only [Bool.and_eq_true, beq_iff_eq]
          rintro ⟨h1, -⟩
          exact hclass h1
        refine ⟨by rw [herreq, herr], ?_, ?_⟩
        · intro c
          rw [hclseq, hclasses, hseen]
          exact ihsome c
        · intro c lst' hlook
          rw [hclseq, hclasses] at hlook
          obtain ⟨hex, hall⟩ := ihrec c lst' hlook
          refine ⟨hex, fun r hr hrty => ⟨(hall r hr hrty).1, ?_⟩⟩
          rw [hnotmeth c]
          exact (hall r hr hrty).2

/-- Counterexample for claim C1: delivering the docstring event of the
method m.C.f before the event of its class m.C makes
insert_children_on_class raise an uncaught KeyError, aborting the
build: no class record exists at all afterwards, so the children list
cannot contain the method uid for this delivery order. -/
theorem c1_counterexample :
    (runEvents [exMethodEvent, exClassEvent]).err = some ("KeyError: " ++ "m.C")
    ∧ (runEvents [exMethodEvent, exClassEvent]).env.classes = []
    ∧ (runEvents [exMethodEvent, exClassEvent]).env.modules = [] :=
  ⟨rfl, rfl, rfl⟩

/-- Claim C1, amended: for every delivery order in which each method or
attribute event resolves its module and follows the registered class
event of its owning class, and in which symbol names are pairwise
distinct, the build survives every event, the class dictionary holds a
record of the owning class, and the children list of every class
record of that class contains the symbol uid exactly once. -/
theorem c1_children_exactly_once (evs : List Event)
    (hnd : (evs.map (fun e => e.name)).Nodup) (hcf : classesFirst evs = true) :
    (runEvents evs).err = none
    ∧ ∀ e ∈ evs, isMeth e = true →
        ∃ lst, lookupD (runEvents evs).env.classes (clsOf e) = some lst
          ∧ (∃ r ∈ lst, r.dtype = "class")
          ∧ ∀ r ∈ lst, r.dtype = "class" →
              ∃ ch, r.children = some ch ∧ ch.count e.name = 1 := by
  obtain ⟨herr, hsome, hrec⟩ := runEvents_invariant evs hnd hcf
  refine ⟨herr, ?_⟩
  intro e he hme
  obtain ⟨hreg, hcont⟩ := classesFirst_meth_final evs [] hcf e he hme
  have hkeysome : (lookupD (runEvents evs).env.classes (clsOf e)).isSome = true := by
    rw [hsome (clsOf e)]
    exact hcont
  obtain ⟨lst, hkey⟩ := Option.isSome_iff_exists.mp hkeysome
  obtain ⟨hex, hall⟩ := hrec (clsOf e) lst hkey
  refine ⟨lst, hkey, hex, ?_⟩
  intro r hr hrty
  refine ⟨methUids evs (clsOf e), (hall r hr hrty).2, ?_⟩
  have hmem : e.name ∈ methUids evs (clsOf e) := by
    unfold methUids
    refine List.mem_map.mpr ⟨e, ?_, rfl⟩
    refine List.mem_filter.mpr ⟨he, ?_⟩
    simp [hme, hreg]
  have hnd2 : (methUids evs (clsOf e)).Nodup := by
    unfold methUids
    exact List.Nodup.sublist
      (List.Sublist.map (fun e2 => e2.name) (List.filter_sublist evs)) hnd
  exact List.count_eq_one_of_mem hnd2 hmem

/-- Witness for the amended claim C1: delivering the class m.C and then
its method m.C.f satisfies the ordering condition, the build survives,
and the children count property holds. -/
theorem c1_witness :
    (runEvents [exClassEvent, exMethodEvent]).err = none
    ∧ ∀ e ∈ [exClassEvent, exMethodEvent], isMeth e = true →
        ∃ lst, lookupD (runEvents [exClassEvent, exMethodEvent]).env.classes (clsOf e) = some lst
          ∧ (∃ r ∈ lst, r.dtype = "class")
          ∧ ∀ r ∈ lst, r.dtype = "class" →
              ∃ ch, r.children = some ch ∧ ch.count e.name = 1 :=
  c1_children_exactly_once [exClassEvent, exMethodEvent] (by decide) (by decide)
